import Mathlib

/-!
Verification of the nnForge layer excerpt: the shape-inference algebra,
construction-time validation, cost accounting and the randomized
degree-constrained connectivity generator of `sparse_convolution_layer`,
and the paired-input shape inference of `negative_log_likelihood_layer`.

Modelling conventions, applied uniformly:
* C++ `unsigned int` values are modelled as `Nat`; `a - b` on `Nat` is
  truncated subtraction, and every place where the C++ expression could
  wrap below zero is noted at the definition.  All concrete inputs used
  in the theorems stay far below 2^32.
* `float` quantities that the claims mention (the sparsity ratio) are
  modelled as exact rationals; the C++ expression is transcribed
  operation for operation over `ℚ`.
* `std::vector<T>` becomes `List`; `v[i]` becomes `List.getD v i d`
  (the C++ accesses are in bounds wherever the program has defined
  behaviour, so the default is never read on those paths).
* `random_generator&` becomes an abstract stream `g : Nat → Nat`
  together with a running position; one call of
  `std::uniform_int_distribution<unsigned int>(0, n - 1)` consumes one
  stream value and yields `g pos % n`.
* Exceptions become `Except nn_exception`; each C++ `throw` site gets
  one constructor carrying the values its message interpolates.
* The unbounded `while(true)` retry loop of `fill_connection_matrix`
  is given an explicit fuel counting outer (margin) iterations; running
  out of fuel yields `none`.
-/

namespace nnforge

deriving instance DecidableEq for Except

/-- Shape Descriptor (`layer_configuration_specific`): feature-map count
plus per-dimension spatial sizes. -/
structure layer_configuration_specific where
  feature_map_count : Nat
  dimension_sizes : List Nat
deriving DecidableEq

instance : Inhabited layer_configuration_specific := ⟨⟨0, []⟩⟩

/-- Product of the spatial sizes. -/
def layer_configuration_specific.get_neuron_count_per_feature_map
    (c : layer_configuration_specific) : Nat :=
  c.dimension_sizes.prod

/-- Total neuron count: feature-map count times the spatial product. -/
def layer_configuration_specific.get_neuron_count
    (c : layer_configuration_specific) : Nat :=
  c.feature_map_count * c.get_neuron_count_per_feature_map

/-- Number of spatial dimensions. -/
def layer_configuration_specific.get_dimension_count
    (c : layer_configuration_specific) : Nat :=
  c.dimension_sizes.length

/-- The exceptions thrown by the excerpt.  The first two constructors are
the `std::runtime_error`s of the `sparse_convolution_layer` constructors
(wrong dimension count for a padding/stride list); all others are
`neural_network_exception`s.  Each constructor carries exactly the values
the corresponding C++ message interpolates. -/
inductive nn_exception where
  /-- constructors: "Invalid dimension count %1% for left/right zero padding"
  (`left` is `true` for the left padding). -/
  | invalid_padding_dimension_count (left : Bool) (n : Nat)
  /-- constructors: "Invalid dimension count %1% for strides". -/
  | invalid_stride_dimension_count (n : Nat)
  /-- check: "window dimension for sparse convolution layer may not be zero". -/
  | zero_window_dimension
  /-- check: "feature_map_connection_count may not be smaller than input_feature_map_count". -/
  | connection_count_below_input_count
  /-- check: "feature_map_connection_count may not be smaller than output_feature_map_count". -/
  | connection_count_below_output_count
  /-- check: "feature_map_connection_count may not be larger than in dense case". -/
  | connection_count_above_dense
  /-- check: "left/right zero padding %1% of dimension (%2%) is greater or equal than layer window size (%3%)". -/
  | padding_not_less_than_window (left : Bool) (pad dim win : Nat)
  /-- check: "stride dimension (%1%) is 0". -/
  | zero_stride (dim : Nat)
  /-- sparse convolution shape inference: "Feature map count in layer (%1%) and input/output configuration (%2%) don't match". -/
  | feature_map_count_mismatch (layer_count cfg_count : Nat)
  /-- sparse convolution shape inference: "Dimension count in layer (%1%) and input configuration (%2%) don't match". -/
  | dimension_count_mismatch (layer_count cfg_count : Nat)
  /-- sparse convolution forward: "Too small total dimension size (with padding) (%1%) of dimension (%2%) is smaller than layer window size (%3%)". -/
  | window_larger_than_padded_input (total dim win : Nat)
  /-- negative log likelihood: "Feature map counts in 2 input layers ... don't match: %1% and %2%". -/
  | nll_feature_map_count_mismatch (first second : Nat)
  /-- negative log likelihood: "Neuron count per feature maps mismatch in 2 input layers". -/
  | nll_neuron_count_mismatch
  /-- negative log likelihood: "Feature map count ... for scaling should be equal to 1, while it is %1%". -/
  | nll_scaling_feature_map_count (n : Nat)
  /-- negative log likelihood: "Neuron count per feature map ... for scaling equals %1%, expected %2%". -/
  | nll_scaling_neuron_count_mismatch (got expected : Nat)
deriving DecidableEq

/-- The two `std::runtime_error`s of the constructors (the spec's
dimension-count errors, a different type from `neural_network_exception`). -/
def nn_exception.is_dimension_count_error : nn_exception → Bool
  | .invalid_padding_dimension_count _ _ => true
  | .invalid_stride_dimension_count _ => true
  | _ => false

/-- The `neural_network_exception`s thrown by `sparse_convolution_layer::check`
(the spec's `ConfigurationError`s). -/
def nn_exception.is_configuration_error : nn_exception → Bool
  | .zero_window_dimension => true
  | .connection_count_below_input_count => true
  | .connection_count_below_output_count => true
  | .connection_count_above_dense => true
  | .padding_not_less_than_window _ _ _ _ => true
  | .zero_stride _ => true
  | _ => false

/-- Layer Action: which compute phase a cost query is about. -/
inductive layer_action where
  | forward
  | backward_data (backprop_index : Nat)
  | backward_weights
deriving DecidableEq

/-- Sparse Convolution Parameters (the fields of `sparse_convolution_layer`).
`feature_map_connection_sparsity_ratio` is `-1` when the layer was built
from an explicit edge count, mirroring the `-1.0F` sentinel. -/
structure sparse_convolution_layer where
  window_sizes : List Nat
  input_feature_map_count : Nat
  output_feature_map_count : Nat
  feature_map_connection_sparsity_ratio : ℚ
  feature_map_connection_count : Nat
  left_zero_padding : List Nat
  right_zero_padding : List Nat
  strides : List Nat
  bias : Bool
deriving DecidableEq

/-- First loop of `check`: any zero window size throws. -/
def check_window_sizes : List Nat → Except nn_exception Unit
  | [] => .ok ()
  | w :: ws =>
    if w = 0 then .error .zero_window_dimension else check_window_sizes ws

/-- Padding loops of `check` (index `i` carried for the message): a padding
greater or equal to its window size throws. -/
def check_zero_padding (left : Bool) : Nat → List Nat → List Nat → Except nn_exception Unit
  | _, [], _ => .ok ()
  | _, _ :: _, [] => .ok ()
  | i, p :: ps, w :: ws =>
    if p ≥ w then .error (.padding_not_less_than_window left p i w)
    else check_zero_padding left (i + 1) ps ws

/-- Stride loop of `check`: a zero stride throws. -/
def check_strides : Nat → List Nat → Except nn_exception Unit
  | _, [] => .ok ()
  | i, s :: ss =>
    if s = 0 then .error (.zero_stride i) else check_strides (i + 1) ss

/-- `sparse_convolution_layer::check`, in source order: window sizes, the
three connection-count bounds, left then right padding, strides. -/
def sparse_convolution_layer.check (l : sparse_convolution_layer) :
    Except nn_exception Unit := do
  check_window_sizes l.window_sizes
  if l.feature_map_connection_count < l.input_feature_map_count then
    throw .connection_count_below_input_count
  if l.feature_map_connection_count < l.output_feature_map_count then
    throw .connection_count_below_output_count
  if l.input_feature_map_count * l.output_feature_map_count < l.feature_map_connection_count then
    throw .connection_count_above_dense
  check_zero_padding true 0 l.left_zero_padding l.window_sizes
  check_zero_padding false 0 l.right_zero_padding l.window_sizes
  check_strides 0 l.strides

/-- Shared body of the two constructors (the C++ repeats it verbatim in
both): dimension-count checks on the three optional lists, the
empty-list defaults (all-zero paddings, all-one strides), then `check`. -/
def sparse_convolution_layer.make_core (window_sizes : List Nat)
    (input_feature_map_count output_feature_map_count : Nat)
    (feature_map_connection_sparsity_ratio : ℚ)
    (feature_map_connection_count : Nat)
    (left_zero_padding right_zero_padding strides : List Nat) (bias : Bool) :
    Except nn_exception sparse_convolution_layer := do
  if left_zero_padding.length ≠ 0 ∧ left_zero_padding.length ≠ window_sizes.length then
    throw (.invalid_padding_dimension_count true left_zero_padding.length)
  if right_zero_padding.length ≠ 0 ∧ right_zero_padding.length ≠ window_sizes.length then
    throw (.invalid_padding_dimension_count false right_zero_padding.length)
  if strides.length ≠ 0 ∧ strides.length ≠ window_sizes.length then
    throw (.invalid_stride_dimension_count strides.length)
  let l : sparse_convolution_layer :=
    { window_sizes := window_sizes
      input_feature_map_count := input_feature_map_count
      output_feature_map_count := output_feature_map_count
      feature_map_connection_sparsity_ratio := feature_map_connection_sparsity_ratio
      feature_map_connection_count := feature_map_connection_count
      left_zero_padding :=
        if left_zero_padding.isEmpty then List.replicate window_sizes.length 0
        else left_zero_padding
      right_zero_padding :=
        if right_zero_padding.isEmpty then List.replicate window_sizes.length 0
        else right_zero_padding
      strides :=
        if strides.isEmpty then List.replicate window_sizes.length 1 else strides
      bias := bias }
  l.check
  pure l

/-- The explicit edge-count constructor: sparsity ratio recorded as `-1.0F`. -/
def sparse_convolution_layer.make (window_sizes : List Nat)
    (input_feature_map_count output_feature_map_count
     feature_map_connection_count : Nat)
    (left_zero_padding right_zero_padding strides : List Nat) (bias : Bool) :
    Except nn_exception sparse_convolution_layer :=
  sparse_convolution_layer.make_core window_sizes input_feature_map_count
    output_feature_map_count (-1) feature_map_connection_count
    left_zero_padding right_zero_padding strides bias

/-- The edge count the ratio form derives:
`static_cast<unsigned int>(in * out * ratio + 0.5F)` — the float
arithmetic transcribed over `ℚ`, the cast truncating toward zero. -/
def derived_connection_count (input_feature_map_count output_feature_map_count : Nat)
    (ratio : ℚ) : Nat :=
  (⌊(input_feature_map_count : ℚ) * (output_feature_map_count : ℚ) * ratio + 1/2⌋).toNat

/-- The sparsity-ratio constructor. -/
def sparse_convolution_layer.make_from_ratio (window_sizes : List Nat)
    (input_feature_map_count output_feature_map_count : Nat)
    (feature_map_connection_sparsity_ratio : ℚ)
    (left_zero_padding right_zero_padding strides : List Nat) (bias : Bool) :
    Except nn_exception sparse_convolution_layer :=
  sparse_convolution_layer.make_core window_sizes input_feature_map_count
    output_feature_map_count feature_map_connection_sparsity_ratio
    (derived_connection_count input_feature_map_count output_feature_map_count
      feature_map_connection_sparsity_ratio)
    left_zero_padding right_zero_padding strides bias

/-- The sparsity branch of `read_proto` (lines 245-256): an explicit count
field wins and resets the ratio to `-1`; otherwise a ratio field derives
the count by the same formula as the constructor; both absent is an error
(modelled by `none`). -/
def read_proto_sparsity (has_count : Option Nat) (has_ratio : Option ℚ)
    (input_feature_map_count output_feature_map_count : Nat) : Option (ℚ × Nat) :=
  match has_count with
  | some c => some (-1, c)
  | none =>
    match has_ratio with
    | some r =>
      some (r, derived_connection_count input_feature_map_count output_feature_map_count r)
    | none => none

/-- `sparse_convolution_layer::get_output_layer_configuration_specific`:
forward shape inference. -/
def sparse_convolution_layer.get_output_layer_configuration_specific
    (l : sparse_convolution_layer)
    (input_configuration_specific_list : List layer_configuration_specific) :
    Except nn_exception layer_configuration_specific := do
  let inp := input_configuration_specific_list.getD 0 default
  if inp.feature_map_count ≠ l.input_feature_map_count then
    throw (.feature_map_count_mismatch l.input_feature_map_count inp.feature_map_count)
  if inp.get_dimension_count ≠ l.window_sizes.length then
    throw (.dimension_count_mismatch l.window_sizes.length inp.get_dimension_count)
  let dims ← (List.range l.window_sizes.length).mapM (fun i => do
    let total_input_dimension_size :=
      inp.dimension_sizes.getD i 0 + l.left_zero_padding.getD i 0 +
        l.right_zero_padding.getD i 0
    if total_input_dimension_size < l.window_sizes.getD i 0 then
      throw (.window_larger_than_padded_input total_input_dimension_size i
        (l.window_sizes.getD i 0))
    pure ((total_input_dimension_size - l.window_sizes.getD i 0) /
      l.strides.getD i 0 + 1))
  pure ⟨l.output_feature_map_count, dims⟩

/-- `sparse_convolution_layer::get_input_layer_configuration_specific`:
backward shape inference.  The C++ returns `true` (supported) on every
non-throwing path and fills the out-parameter, so the model returns the
pair.  Note two source facts this transcribes exactly: the recovered
configuration is seeded with `output_feature_map_count` (line 184), and
each recovered size is `(out - 1) * stride + window - left_pad - right_pad`
evaluated left to right (over `Nat` here; the C++ wraps below zero, which
no theorem input reaches). -/
def sparse_convolution_layer.get_input_layer_configuration_specific
    (l : sparse_convolution_layer)
    (output_configuration_specific : layer_configuration_specific) :
    Except nn_exception (Bool × layer_configuration_specific) := do
  if output_configuration_specific.feature_map_count ≠ l.output_feature_map_count then
    throw (.feature_map_count_mismatch l.output_feature_map_count
      output_configuration_specific.feature_map_count)
  if output_configuration_specific.get_dimension_count ≠ l.window_sizes.length then
    throw (.dimension_count_mismatch l.window_sizes.length
      output_configuration_specific.get_dimension_count)
  let dims := (List.range l.window_sizes.length).map (fun i =>
    (output_configuration_specific.dimension_sizes.getD i 0 - 1) *
        l.strides.getD i 0 + l.window_sizes.getD i 0 -
      l.left_zero_padding.getD i 0 - l.right_zero_padding.getD i 0)
  pure (true, ⟨l.output_feature_map_count, dims⟩)

/-- `sparse_convolution_layer::get_data_config`: the weight group, then the
bias group when bias is enabled.  The C++ folds the window sizes into
`weight_count` starting from the connection count. -/
def sparse_convolution_layer.get_data_config (l : sparse_convolution_layer) :
    List Nat :=
  let weight_count := l.window_sizes.foldl (· * ·) l.feature_map_connection_count
  [weight_count] ++ (if l.bias then [l.output_feature_map_count] else [])

/-- `sparse_convolution_layer::get_data_custom_config`: column indices then
row offsets. -/
def sparse_convolution_layer.get_data_custom_config (l : sparse_convolution_layer) :
    List Nat :=
  [l.feature_map_connection_count, l.output_feature_map_count + 1]

/-- `sparse_convolution_layer::get_flops_per_entry`: the switch shares one
case body between `forward`, `backward_data` and `backward_weights`
(lines 522-524), so all three phases get the same estimate.  The float
return is modelled exactly over `Nat`. -/
def sparse_convolution_layer.get_flops_per_entry (l : sparse_convolution_layer)
    (input_configuration_specific_list : List layer_configuration_specific)
    (action : layer_action) : Except nn_exception Nat :=
  match action with
  | .forward | .backward_data _ | .backward_weights => do
    let out ← l.get_output_layer_configuration_specific input_configuration_specific_list
    let neuron_count := out.get_neuron_count_per_feature_map
    let per_item_flops :=
      l.window_sizes.foldl (· * ·) (l.feature_map_connection_count * 2)
    let per_item_flops := if l.bias then per_item_flops else per_item_flops - 1
    pure (neuron_count * per_item_flops)

/-- `negative_log_likelihood_layer::get_output_layer_configuration_specific`:
the two mandatory inputs must share feature-map count and per-feature-map
neuron count; an optional third (scaling) input must have exactly one
feature map and the first input's per-feature-map neuron count.  The
output collapses the feature-map count to 1 and keeps the first input's
spatial sizes. -/
def negative_log_likelihood_layer.get_output_layer_configuration_specific
    (input_configuration_specific_list : List layer_configuration_specific) :
    Except nn_exception layer_configuration_specific := do
  let i0 := input_configuration_specific_list.getD 0 default
  let i1 := input_configuration_specific_list.getD 1 default
  if i0.feature_map_count ≠ i1.feature_map_count then
    throw (.nll_feature_map_count_mismatch i0.feature_map_count i1.feature_map_count)
  if i0.get_neuron_count_per_feature_map ≠ i1.get_neuron_count_per_feature_map then
    throw .nll_neuron_count_mismatch
  if 2 < input_configuration_specific_list.length then
    let i2 := input_configuration_specific_list.getD 2 default
    if i2.feature_map_count ≠ 1 then
      throw (.nll_scaling_feature_map_count i2.feature_map_count)
    if i2.get_neuron_count_per_feature_map ≠ i0.get_neuron_count_per_feature_map then
      throw (.nll_scaling_neuron_count_mismatch i2.get_neuron_count_per_feature_map
        i0.get_neuron_count_per_feature_map)
  pure ⟨1, i0.dimension_sizes⟩

/-- `negative_log_likelihood_layer::get_flops_per_entry`: forward costs
3 flops per input feature map per output neuron; backward-data costs 2
flops per neuron of the differentiated input; everything else (including
backward-weights) falls to the `default: return 0` branch. -/
def negative_log_likelihood_layer.get_flops_per_entry
    (input_configuration_specific_list : List layer_configuration_specific)
    (action : layer_action) : Except nn_exception Nat :=
  match action with
  | .forward => do
    let out ← negative_log_likelihood_layer.get_output_layer_configuration_specific
      input_configuration_specific_list
    let neuron_count := out.get_neuron_count
    let per_item_flops :=
      (input_configuration_specific_list.getD 0 default).feature_map_count * 3
    pure (neuron_count * per_item_flops)
  | .backward_data backprop_index =>
    pure ((input_configuration_specific_list.getD backprop_index default).get_neuron_count * 2)
  | .backward_weights => pure 0

/-! ### The connectivity generator (`fill_connection_matrix`) and the
compressed-row conversion (`fill_data_custom`). -/

/-- Flat index of cell (output, input) in the `output × input` matrix:
`output_feature_map_id * input_feature_map_count + input_feature_map_id`. -/
def matrix_index (input_feature_map_count output_feature_map_id input_feature_map_id : Nat) :
    Nat :=
  output_feature_map_id * input_feature_map_count + input_feature_map_id

/-- One draw of `std::uniform_int_distribution<unsigned int>(0, n - 1)`
from the abstract stream: the value at the current position, mod `n`. -/
def draw (g : Nat → Nat) (pos n : Nat) : Nat := g pos % n

/-- Row degree: how many inputs an output feature map is connected to
(the inner counting loop of `fill_connection_matrix`, lines 348-355). -/
def row_connection_count (connection_matrix : List Bool)
    (input_feature_map_count output_feature_map_id : Nat) : Nat :=
  ((List.range input_feature_map_count).filter (fun input_feature_map_id =>
    connection_matrix.getD
      (matrix_index input_feature_map_count output_feature_map_id input_feature_map_id)
      false)).length

/-- Column degree: how many outputs an input feature map is connected to
(lines 366-374). -/
def col_connection_count (connection_matrix : List Bool)
    (input_feature_map_count output_feature_map_count input_feature_map_id : Nat) : Nat :=
  ((List.range output_feature_map_count).filter (fun output_feature_map_id =>
    connection_matrix.getD
      (matrix_index input_feature_map_count output_feature_map_id input_feature_map_id)
      false)).length

/-- Number of `true` cells of the matrix. -/
def count_true (connection_matrix : List Bool) : Nat :=
  (connection_matrix.filter (fun b => b)).length

/-- The 1%-tolerant secondary cap:
`std::max(cap + 1, (unsigned int)(cap * 1.01F))`, the float product and
truncation transcribed as `cap * 101 / 100`. -/
def max_connections_overflow (cap : Nat) : Nat :=
  max (cap + 1) (cap * 101 / 100)

/-- The strict per-output cap for a margin:
`(edge_count + output_count - 1) / output_count + margin` (and the same
shape for the input side). -/
def max_connections_strict (feature_map_connection_count node_count margin : Nat) : Nat :=
  (feature_map_connection_count + node_count - 1) / node_count + margin

/-- The mutable state of one generation attempt, one field per local of
the C++ loop body, plus the stream position. -/
structure gen_state where
  local_connection_matrix : List Bool
  output_feature_map_connection_count_list : List Nat
  input_feature_map_connection_count_list : List Nat
  output_feature_map_id_available_list : List Nat
  output_feature_map_id_available_overflow_list : List Nat
  input_feature_map_id_available_list : List Nat
  input_feature_map_id_available_overflow_list : List Nat
  explore_strict : Bool
  current_output_feature_map_index : Nat
  pos : Nat
deriving DecidableEq

/-- First fallback tier (lines 396-402): up to `attempts` tries pairing the
fixed cursor-selected output with a random available input; each try
consumes one draw; success is an unconnected pair. -/
def strict_cursor_attempts (g : Nat → Nat) (input_feature_map_count : Nat)
    (local_connection_matrix : List Bool) (output_feature_map_id : Nat)
    (input_feature_map_id_available_list : List Nat) :
    Nat → Nat → Option Nat × Nat
  | 0, pos => (none, pos)
  | attempts + 1, pos =>
    let input_feature_map_id := input_feature_map_id_available_list.getD
      (draw g pos input_feature_map_id_available_list.length) 0
    if local_connection_matrix.getD
        (matrix_index input_feature_map_count output_feature_map_id input_feature_map_id)
        false then
      strict_cursor_attempts g input_feature_map_count local_connection_matrix
        output_feature_map_id input_feature_map_id_available_list attempts (pos + 1)
    else
      (some input_feature_map_id, pos + 1)

/-- Random-pair tier (lines 405-412 with the strict lists, and again
lines 419-426 with the overflow lists — the two loop bodies are
identical): both endpoints drawn from the given lists, two draws per
try; success is an unconnected pair. -/
def random_pair_attempts (g : Nat → Nat) (input_feature_map_count : Nat)
    (local_connection_matrix : List Bool)
    (output_list input_list : List Nat) :
    Nat → Nat → Option (Nat × Nat) × Nat
  | 0, pos => (none, pos)
  | attempts + 1, pos =>
    let output_feature_map_id := output_list.getD (draw g pos output_list.length) 0
    let input_feature_map_id := input_list.getD (draw g (pos + 1) input_list.length) 0
    if local_connection_matrix.getD
        (matrix_index input_feature_map_count output_feature_map_id input_feature_map_id)
        false then
      random_pair_attempts g input_feature_map_count local_connection_matrix
        output_list input_list attempts (pos + 2)
    else
      (some (output_feature_map_id, input_feature_map_id), pos + 2)

/-- The third tier (lines 417-427): both endpoints drawn from the overflow
lists, up to 100 tries.  A draw over an empty list is undefined behaviour
in the C++ (an empty `uniform_int_distribution` range); it is modelled as
finding nothing. -/
def overflow_tier (g : Nat → Nat) (input_feature_map_count : Nat) (st : gen_state)
    (explore : Bool) (pos : Nat) : Option (Nat × Nat) × Bool × Nat :=
  if st.output_feature_map_id_available_overflow_list.isEmpty ∨
      st.input_feature_map_id_available_overflow_list.isEmpty then
    ((none : Option (Nat × Nat)), explore, pos)
  else
    let r := random_pair_attempts g input_feature_map_count
      st.local_connection_matrix st.output_feature_map_id_available_overflow_list
      st.input_feature_map_id_available_overflow_list 100 pos
    (r.1, explore, r.2)

/-- The three-tier fallback ladder for one edge (lines 391-427): tiers one
and two only while `explore_strict` holds, which is reset to whether they
succeeded; tier three uses the overflow lists.  Returns the pair found
(if any), the updated `explore_strict`, and the stream position. -/
def find_connection_pair (g : Nat → Nat) (input_feature_map_count : Nat)
    (st : gen_state) : Option (Nat × Nat) × Bool × Nat :=
  if st.explore_strict then
    if st.output_feature_map_id_available_list.isEmpty ∨
        st.input_feature_map_id_available_list.isEmpty then
      overflow_tier g input_feature_map_count st false st.pos
    else
      let output_feature_map_id := st.output_feature_map_id_available_list.getD
        st.current_output_feature_map_index 0
      let first := strict_cursor_attempts g input_feature_map_count
        st.local_connection_matrix output_feature_map_id
        st.input_feature_map_id_available_list 20 st.pos
      match first with
      | (some input_feature_map_id, pos1) =>
        (some (output_feature_map_id, input_feature_map_id), true, pos1)
      | (none, pos1) =>
        let second := random_pair_attempts g input_feature_map_count
          st.local_connection_matrix st.output_feature_map_id_available_list
          st.input_feature_map_id_available_list 100 pos1
        match second with
        | (some p, pos2) => (some p, true, pos2)
        | (none, pos2) => overflow_tier g input_feature_map_count st false pos2
  else
    overflow_tier g input_feature_map_count st false st.pos

/-- Bookkeeping after a found pair (lines 429-454): mark the cell, bump
both degree counters, drop a node from an availability list exactly when
it reaches the list's cap (on the output side the overflow check is
inside the `else` of the strict check, as in the source), advance and
wrap the cursor, and re-derive `explore_strict`. -/
def register_connection (input_feature_map_count : Nat)
    (max_connections_for_output_feature_map max_connections_for_output_feature_map_overflow
     max_connections_for_input_feature_map max_connections_for_input_feature_map_overflow : Nat)
    (st : gen_state) (output_feature_map_id input_feature_map_id : Nat)
    (explore : Bool) (pos : Nat) : gen_state :=
  let local_connection_matrix := st.local_connection_matrix.set
    (matrix_index input_feature_map_count output_feature_map_id input_feature_map_id) true
  let output_feature_map_connection_count :=
    st.output_feature_map_connection_count_list.getD output_feature_map_id 0 + 1
  let output_feature_map_connection_count_list :=
    st.output_feature_map_connection_count_list.set output_feature_map_id
      output_feature_map_connection_count
  let out_step :=
    if output_feature_map_connection_count = max_connections_for_output_feature_map then
      (st.output_feature_map_id_available_list.erase output_feature_map_id,
       st.current_output_feature_map_index,
       st.output_feature_map_id_available_overflow_list)
    else
      (st.output_feature_map_id_available_list,
       st.current_output_feature_map_index + 1,
       if output_feature_map_connection_count =
           max_connections_for_output_feature_map_overflow then
         st.output_feature_map_id_available_overflow_list.erase output_feature_map_id
       else
         st.output_feature_map_id_available_overflow_list)
  let input_feature_map_connection_count :=
    st.input_feature_map_connection_count_list.getD input_feature_map_id 0 + 1
  let input_feature_map_connection_count_list :=
    st.input_feature_map_connection_count_list.set input_feature_map_id
      input_feature_map_connection_count
  let in_step :=
    if input_feature_map_connection_count = max_connections_for_input_feature_map then
      (st.input_feature_map_id_available_list.erase input_feature_map_id,
       st.input_feature_map_id_available_overflow_list)
    else if input_feature_map_connection_count =
        max_connections_for_input_feature_map_overflow then
      (st.input_feature_map_id_available_list,
       st.input_feature_map_id_available_overflow_list.erase input_feature_map_id)
    else
      (st.input_feature_map_id_available_list,
       st.input_feature_map_id_available_overflow_list)
  let current_output_feature_map_index :=
    if out_step.1.isEmpty then out_step.2.1 else out_step.2.1 % out_step.1.length
  let explore_strict :=
    if explore then !out_step.1.isEmpty && !in_step.1.isEmpty else explore
  { local_connection_matrix := local_connection_matrix
    output_feature_map_connection_count_list := output_feature_map_connection_count_list
    input_feature_map_connection_count_list := input_feature_map_connection_count_list
    output_feature_map_id_available_list := out_step.1
    output_feature_map_id_available_overflow_list := out_step.2.2
    input_feature_map_id_available_list := in_step.1
    input_feature_map_id_available_overflow_list := in_step.2
    explore_strict := explore_strict
    current_output_feature_map_index := current_output_feature_map_index
    pos := pos }

/-- The edge-placement loop of one attempt (lines 389-460), recursing on
the number of edges still to place; a tier ladder that finds nothing
aborts the attempt (`should_retry_with_larger_margin`), reported as
`none` together with the stream position reached. -/
def place_edges (g : Nat → Nat) (input_feature_map_count : Nat)
    (max_connections_for_output_feature_map max_connections_for_output_feature_map_overflow
     max_connections_for_input_feature_map max_connections_for_input_feature_map_overflow : Nat) :
    Nat → gen_state → Option gen_state × Nat
  | 0, st => (some st, st.pos)
  | remaining + 1, st =>
    match find_connection_pair g input_feature_map_count st with
    | (some (output_feature_map_id, input_feature_map_id), explore, pos) =>
      place_edges g input_feature_map_count
        max_connections_for_output_feature_map
        max_connections_for_output_feature_map_overflow
        max_connections_for_input_feature_map
        max_connections_for_input_feature_map_overflow
        remaining
        (register_connection input_feature_map_count
          max_connections_for_output_feature_map
          max_connections_for_output_feature_map_overflow
          max_connections_for_input_feature_map
          max_connections_for_input_feature_map_overflow
          st output_feature_map_id input_feature_map_id explore pos)
    | (none, _, pos) => (none, pos)

/-- End of one attempt (lines 463-467): a finished attempt hands back its
local matrix, a failed one reports retry. -/
def attempt_finish : Option gen_state × Nat → Option (List Bool) × Nat
  | (some st, pos) => (some st.local_connection_matrix, pos)
  | (none, pos) => (none, pos)

/-- One attempt at a fixed margin (one iteration of the outer
`while(true)`, lines 341-460): compute the caps, rebuild the degree
counters and the four availability lists from a fresh copy of the input
matrix, then place the missing edges.  Returns the finished matrix or
`none`, with the stream position. -/
def connection_attempt (g : Nat → Nat)
    (output_feature_map_count input_feature_map_count feature_map_connection_count
     margin : Nat) (connection_matrix : List Bool) (pos : Nat) :
    Option (List Bool) × Nat :=
  let max_connections_for_output_feature_map :=
    max_connections_strict feature_map_connection_count output_feature_map_count margin
  let max_connections_for_input_feature_map :=
    max_connections_strict feature_map_connection_count input_feature_map_count margin
  let max_connections_for_output_feature_map_overflow :=
    max_connections_overflow max_connections_for_output_feature_map
  let max_connections_for_input_feature_map_overflow :=
    max_connections_overflow max_connections_for_input_feature_map
  let output_feature_map_connection_count_list :=
    (List.range output_feature_map_count).map
      (row_connection_count connection_matrix input_feature_map_count)
  let input_feature_map_connection_count_list :=
    (List.range input_feature_map_count).map
      (col_connection_count connection_matrix input_feature_map_count
        output_feature_map_count)
  let st : gen_state :=
    { local_connection_matrix := connection_matrix
      output_feature_map_connection_count_list := output_feature_map_connection_count_list
      input_feature_map_connection_count_list := input_feature_map_connection_count_list
      output_feature_map_id_available_list :=
        (List.range output_feature_map_count).filter (fun i =>
          output_feature_map_connection_count_list.getD i 0 <
            max_connections_for_output_feature_map)
      output_feature_map_id_available_overflow_list :=
        (List.range output_feature_map_count).filter (fun i =>
          output_feature_map_connection_count_list.getD i 0 <
            max_connections_for_output_feature_map_overflow)
      input_feature_map_id_available_list :=
        (List.range input_feature_map_count).filter (fun i =>
          input_feature_map_connection_count_list.getD i 0 <
            max_connections_for_input_feature_map)
      input_feature_map_id_available_overflow_list :=
        (List.range input_feature_map_count).filter (fun i =>
          input_feature_map_connection_count_list.getD i 0 <
            max_connections_for_input_feature_map_overflow)
      explore_strict := true
      current_output_feature_map_index := 0
      pos := pos }
  let initial_connection_count := output_feature_map_connection_count_list.sum
  attempt_finish (place_edges g input_feature_map_count
    max_connections_for_output_feature_map
    max_connections_for_output_feature_map_overflow
    max_connections_for_input_feature_map
    max_connections_for_input_feature_map_overflow
    (feature_map_connection_count - initial_connection_count) st)

/-- The margin-relaxation loop, fuelled by the number of outer iterations
allowed.  Returns the matrix together with the margin of the successful
attempt (the C++ keeps the margin local; it is returned here so the caps
of the successful attempt can be spoken about). -/
def fill_connection_matrix_loop (g : Nat → Nat)
    (output_feature_map_count input_feature_map_count feature_map_connection_count : Nat)
    (connection_matrix : List Bool) :
    Nat → Nat → Nat → Option (List Bool × Nat)
  | 0, _, _ => none
  | fuel + 1, margin, pos =>
    match connection_attempt g output_feature_map_count input_feature_map_count
        feature_map_connection_count margin connection_matrix pos with
    | (some m, _) => some (m, margin)
    | (none, pos) =>
      fill_connection_matrix_loop g output_feature_map_count input_feature_map_count
        feature_map_connection_count connection_matrix fuel (margin + 1) pos

/-- `sparse_convolution_layer::fill_connection_matrix`: the retry loop
started at margin 0 and stream position 0. -/
def fill_connection_matrix (g : Nat → Nat)
    (output_feature_map_count input_feature_map_count feature_map_connection_count : Nat)
    (connection_matrix : List Bool) (fuel : Nat) : Option (List Bool) :=
  (fill_connection_matrix_loop g output_feature_map_count input_feature_map_count
    feature_map_connection_count connection_matrix fuel 0 0).map (·.1)

/-- Termination of the generator on a given stream, from the all-false
matrix: some fuel suffices. -/
def fill_terminates (output_feature_map_count input_feature_map_count
    feature_map_connection_count : Nat) (g : Nat → Nat) : Prop :=
  ∃ fuel m, fill_connection_matrix g output_feature_map_count input_feature_map_count
    feature_map_connection_count
    (List.replicate (output_feature_map_count * input_feature_map_count) false) fuel = some m

/-- The stream on which the generator never terminates for
`(output, input, edge) = (2, 3, 5)`: every draw takes the first available
candidate except the fourth, which takes the second. -/
def adversary_stream (n : Nat) : Nat := if n = 3 then 1 else 0

/-- The state a `(2, 3, 5)` attempt starts from (stream position `p`):
used in the divergence proof. -/
def adversary_state0 (p : Nat) : gen_state :=
  { local_connection_matrix := [false, false, false, false, false, false]
    output_feature_map_connection_count_list := [0, 0]
    input_feature_map_connection_count_list := [0, 0, 0]
    output_feature_map_id_available_list := [0, 1]
    output_feature_map_id_available_overflow_list := [0, 1]
    input_feature_map_id_available_list := [0, 1, 2]
    input_feature_map_id_available_overflow_list := [0, 1, 2]
    explore_strict := true
    current_output_feature_map_index := 0
    pos := p }

/-- The state after the adversarial attempt places its first edge `(0, 0)`. -/
def adversary_state1 (p : Nat) : gen_state :=
  { local_connection_matrix := [true, false, false, false, false, false]
    output_feature_map_connection_count_list := [1, 0]
    input_feature_map_connection_count_list := [1, 0, 0]
    output_feature_map_id_available_list := [0, 1]
    output_feature_map_id_available_overflow_list := [0, 1]
    input_feature_map_id_available_list := [0, 1, 2]
    input_feature_map_id_available_overflow_list := [0, 1, 2]
    explore_strict := true
    current_output_feature_map_index := 1
    pos := p }

/-- The state after the adversarial attempt places its second edge `(1, 0)`;
from here every draw of the stream proposes the already-connected pair
`(0, 0)`, so the tier ladder never finds a third edge. -/
def adversary_state2 (p : Nat) : gen_state :=
  { local_connection_matrix := [true, false, false, true, false, false]
    output_feature_map_connection_count_list := [1, 1]
    input_feature_map_connection_count_list := [2, 0, 0]
    output_feature_map_id_available_list := [0, 1]
    output_feature_map_id_available_overflow_list := [0, 1]
    input_feature_map_id_available_list := [0, 1, 2]
    input_feature_map_id_available_overflow_list := [0, 1, 2]
    explore_strict := true
    current_output_feature_map_index := 0
    pos := p }

/-- The connected inputs of one output feature map, in increasing order
(the inner loop of `fill_data_custom`, lines 484-491, pushes exactly
these, in this order). -/
def row_connected_input_list (connection_matrix : List Bool)
    (input_feature_map_count output_feature_map_id : Nat) : List Nat :=
  (List.range input_feature_map_count).filter (fun input_feature_map_id =>
    connection_matrix.getD
      (matrix_index input_feature_map_count output_feature_map_id input_feature_map_id)
      false)

/-- `sparse_convolution_layer::fill_data_custom`: walk the rows, recording
for each output the running column offset, appending its connected input
indices, and closing the offset table with the total.  Result: (column
index list `data_custom[0]`, row offset list `data_custom[1]`). -/
def fill_data_custom (connection_matrix : List Bool)
    (output_feature_map_count input_feature_map_count : Nat) : List Nat × List Nat :=
  let step := fun (acc : List Nat × List Nat) (output_feature_map_id : Nat) =>
    (acc.1 ++ row_connected_input_list connection_matrix input_feature_map_count
        output_feature_map_id,
     acc.2 ++ [acc.1.length])
  let cols_offsets := (List.range output_feature_map_count).foldl step ([], [])
  (cols_offsets.1, cols_offsets.2 ++ [cols_offsets.1.length])

/-- `sparse_convolution_layer::randomize_custom_data`: generate the
connection matrix from the all-false matrix, then compress it. -/
def sparse_convolution_layer.randomize_custom_data (l : sparse_convolution_layer)
    (g : Nat → Nat) (fuel : Nat) : Option (List Nat × List Nat) :=
  (fill_connection_matrix g l.output_feature_map_count l.input_feature_map_count
    l.feature_map_connection_count
    (List.replicate (l.output_feature_map_count * l.input_feature_map_count) false)
    fuel).map (fun connection_matrix =>
      fill_data_custom connection_matrix l.output_feature_map_count
        l.input_feature_map_count)

/-- One rejection-sampled weight (`randomize_weights`, lines 316-319):
`nd sigma p` models one draw of `std::normal_distribution<float>(0.0F, sigma)`
at abstract stream position `p`; a first draw, then redraws (advancing
the position) while the magnitude exceeds `bound`; fuelled because the
C++ `while` can loop forever on an adversarial stream. -/
def reject_sample (nd : ℚ → Nat → ℚ) (sigma bound : ℚ) :
    Nat → Nat → Option (ℚ × Nat)
  | 0, _ => none
  | fuel + 1, pos =>
    let val := nd sigma pos
    if bound < |val| then reject_sample nd sigma bound fuel (pos + 1)
    else some (val, pos + 1)

/-- The inner loop of `randomize_weights` (lines 314-324): writes `count`
rejection-sampled weights in order. -/
def sample_weights (nd : ℚ → Nat → ℚ) (sigma bound : ℚ) (fuel : Nat) :
    Nat → Nat → Option (List ℚ × Nat)
  | 0, pos => some ([], pos)
  | count + 1, pos =>
    match reject_sample nd sigma bound fuel pos with
    | none => none
    | some (val, pos1) =>
      match sample_weights nd sigma bound fuel count pos1 with
      | none => none
      | some (vals, pos2) => some (val :: vals, pos2)

/-- The per-output standard deviation of `randomize_weights`
(lines 309-310), the float square root kept abstract as `sqrtf`:
`sqrtf(1.0F / (sqrtf(k * output_feature_map_count) * weight_count))`. -/
def weight_sigma (sqrtf : ℚ → ℚ) (k output_feature_map_count weight_count : Nat) : ℚ :=
  sqrtf (1 / (sqrtf ((k : ℚ) * (output_feature_map_count : ℚ)) *
    (weight_count : ℚ)))

/-- The outer loop of `randomize_weights` (lines 303-326) over the output
feature maps: each output's fan-in is the difference of two consecutive
entries of the row-offset table `data_custom[1]` (unsigned subtraction),
outputs with no connections are skipped, and every other output gets
`weight_count * k` rejection-sampled weights at its own standard
deviation, with the bound `100.0F * standard_deviation` (line 311). -/
def randomize_weights_ids (sqrtf : ℚ → ℚ) (nd : ℚ → Nat → ℚ)
    (output_feature_map_count weight_count : Nat) (row_offsets : List Nat)
    (fuel : Nat) : List Nat → Nat → Option (List ℚ × Nat)
  | [], pos => some ([], pos)
  | output_feature_map_id :: rest, pos =>
    let k := row_offsets.getD (output_feature_map_id + 1) 0 -
      row_offsets.getD output_feature_map_id 0
    if 0 < k then
      let sigma := weight_sigma sqrtf k output_feature_map_count weight_count
      match sample_weights nd sigma (100 * sigma) fuel (weight_count * k) pos with
      | none => none
      | some (vals, pos1) =>
        match randomize_weights_ids sqrtf nd output_feature_map_count weight_count
            row_offsets fuel rest pos1 with
        | none => none
        | some (vals1, pos2) => some (vals ++ vals1, pos2)
    else
      randomize_weights_ids sqrtf nd output_feature_map_count weight_count
        row_offsets fuel rest pos

/-- `sparse_convolution_layer::randomize_weights` (lines 295-329): the
weight count is the product of the window sizes (fold starting at 1,
lines 300-301), the weight group is filled output feature map by output
feature map, and when `bias` is enabled the bias group is overwritten
with zeros (`std::fill`, line 328). -/
def sparse_convolution_layer.randomize_weights (l : sparse_convolution_layer)
    (sqrtf : ℚ → ℚ) (nd : ℚ → Nat → ℚ) (row_offsets : List Nat)
    (bias0 : List ℚ) (fuel pos : Nat) : Option (List ℚ × List ℚ) :=
  match randomize_weights_ids sqrtf nd l.output_feature_map_count
      (l.window_sizes.foldl (· * ·) 1) row_offsets fuel
      (List.range l.output_feature_map_count) pos with
  | none => none
  | some (weights, _) =>
    some (weights, if l.bias then bias0.map (fun _ => 0) else bias0)

/-- The attempt-state invariant used for the partial-correctness theorem
about `fill_connection_matrix`: the degree counters mirror the matrix,
each availability list holds only (distinct) nodes strictly below its
cap, the cursor stays in range, and no degree exceeds its overflow cap. -/
structure gen_invariant (output_feature_map_count input_feature_map_count
    max_connections_for_output_feature_map
    max_connections_for_output_feature_map_overflow
    max_connections_for_input_feature_map
    max_connections_for_input_feature_map_overflow : Nat)
    (st : gen_state) : Prop where
  matrix_length : st.local_connection_matrix.length =
    output_feature_map_count * input_feature_map_count
  out_counts : ∀ o, o < output_feature_map_count →
    st.output_feature_map_connection_count_list.getD o 0 =
      row_connection_count st.local_connection_matrix input_feature_map_count o
  in_counts : ∀ i, i < input_feature_map_count →
    st.input_feature_map_connection_count_list.getD i 0 =
      col_connection_count st.local_connection_matrix input_feature_map_count
        output_feature_map_count i
  out_counts_length : st.output_feature_map_connection_count_list.length =
    output_feature_map_count
  in_counts_length : st.input_feature_map_connection_count_list.length =
    input_feature_map_count
  out_avail : ∀ o ∈ st.output_feature_map_id_available_list,
    o < output_feature_map_count ∧
      row_connection_count st.local_connection_matrix input_feature_map_count o <
        max_connections_for_output_feature_map
  out_avail_overflow : ∀ o ∈ st.output_feature_map_id_available_overflow_list,
    o < output_feature_map_count ∧
      row_connection_count st.local_connection_matrix input_feature_map_count o <
        max_connections_for_output_feature_map_overflow
  in_avail : ∀ i ∈ st.input_feature_map_id_available_list,
    i < input_feature_map_count ∧
      col_connection_count st.local_connection_matrix input_feature_map_count
        output_feature_map_count i < max_connections_for_input_feature_map
  in_avail_overflow : ∀ i ∈ st.input_feature_map_id_available_overflow_list,
    i < input_feature_map_count ∧
      col_connection_count st.local_connection_matrix input_feature_map_count
        output_feature_map_count i < max_connections_for_input_feature_map_overflow
  out_avail_nodup : st.output_feature_map_id_available_list.Nodup
  out_avail_overflow_nodup : st.output_feature_map_id_available_overflow_list.Nodup
  in_avail_nodup : st.input_feature_map_id_available_list.Nodup
  in_avail_overflow_nodup : st.input_feature_map_id_available_overflow_list.Nodup
  cursor : st.output_feature_map_id_available_list ≠ [] →
    st.current_output_feature_map_index <
      st.output_feature_map_id_available_list.length
  out_degrees : ∀ o, o < output_feature_map_count →
    row_connection_count st.local_connection_matrix input_feature_map_count o ≤
      max_connections_for_output_feature_map_overflow
  in_degrees : ∀ i, i < input_feature_map_count →
    col_connection_count st.local_connection_matrix input_feature_map_count
      output_feature_map_count i ≤ max_connections_for_input_feature_map_overflow

/-- The layer record `make_core` builds once the dimension-count guards
have passed. -/
def built_layer (window_sizes : List Nat)
    (input_feature_map_count output_feature_map_count : Nat)
    (feature_map_connection_sparsity_ratio : ℚ)
    (feature_map_connection_count : Nat)
    (left_zero_padding right_zero_padding strides : List Nat) (bias : Bool) :
    sparse_convolution_layer :=
  { window_sizes := window_sizes
    input_feature_map_count := input_feature_map_count
    output_feature_map_count := output_feature_map_count
    feature_map_connection_sparsity_ratio := feature_map_connection_sparsity_ratio
    feature_map_connection_count := feature_map_connection_count
    left_zero_padding :=
      if left_zero_padding.isEmpty then List.replicate window_sizes.length 0
      else left_zero_padding
    right_zero_padding :=
      if right_zero_padding.isEmpty then List.replicate window_sizes.length 0
      else right_zero_padding
    strides :=
      if strides.isEmpty then List.replicate window_sizes.length 1 else strides
    bias := bias }

/-! ## Generic helper lemmas -/

theorem foldl_mul_eq_mul_prod (l : List Nat) : ∀ a : Nat, l.foldl (· * ·) a = a * l.prod := by
  induction l with
  | nil => intro a; simp
  | cons x xs ih => intro a; simp only [List.foldl_cons, ih, List.prod_cons]; ring

theorem getD_map_range {α : Type} (n i : Nat) (f : Nat → α) (d : α) (h : i < n) :
    ((List.range n).map f).getD i d = f i := by
  have hl : i < ((List.range n).map f).length := by simpa using h
  rw [List.getD_eq_getElem _ _ hl]
  simp

theorem getD_mem_of_lt {l : List Nat} {i : Nat} (h : i < l.length) : l.getD i 0 ∈ l := by
  rw [List.getD_eq_getElem l 0 h]
  exact List.getElem_mem h

theorem getD_mod_mem {l : List Nat} (h : l ≠ []) (k : Nat) : l.getD (k % l.length) 0 ∈ l :=
  getD_mem_of_lt (Nat.mod_lt _ (List.length_pos.mpr h))

/-! ## C6: weight and bias group sizes -/

/-- C6 (confirmed): for every sparse convolution configuration,
`get_data_config` reports a first (weight) group of size
`feature_map_connection_count * product of window sizes`, followed by a
second (bias) group of size `output_feature_map_count` exactly when bias
is enabled. -/
theorem get_data_config_weight_and_bias (l : sparse_convolution_layer) :
    l.get_data_config =
      [l.feature_map_connection_count * l.window_sizes.prod] ++
        (if l.bias then [l.output_feature_map_count] else []) := by
  simp [sparse_convolution_layer.get_data_config, foldl_mul_eq_mul_prod]

/-! ## Validation (`check`) and the constructors -/

theorem check_window_sizes_ok (ws : List Nat) :
    check_window_sizes ws = .ok () ↔ ∀ w ∈ ws, w ≠ 0 := by
  induction ws with
  | nil => simp [check_window_sizes]
  | cons w ws ih => by_cases h : w = 0 <;> simp [check_window_sizes, h, ih]

theorem check_window_sizes_cases (ws : List Nat) :
    check_window_sizes ws = .ok () ∨ check_window_sizes ws = .error .zero_window_dimension := by
  induction ws with
  | nil => exact Or.inl rfl
  | cons w ws ih =>
    by_cases h : w = 0
    · exact Or.inr (by simp [check_window_sizes, h])
    · simpa [check_window_sizes, h] using ih

theorem check_zero_padding_ok (left : Bool) :
    ∀ (ps : List Nat) (i : Nat) (ws : List Nat),
      (check_zero_padding left i ps ws = .ok () ↔
        ∀ k, k < ps.length → k < ws.length → ps.getD k 0 < ws.getD k 0) := by
  intro ps
  induction ps with
  | nil => intro i ws; simp [check_zero_padding]
  | cons p ps ih =>
    intro i ws
    cases ws with
    | nil => simp [check_zero_padding]
    | cons w ws =>
      simp only [check_zero_padding]
      by_cases h : p ≥ w
      · rw [if_pos h]
        constructor
        · intro hc; cases hc
        · intro hall
          have h0 := hall 0 (by simp) (by simp)
          simp only [List.getD_cons_zero] at h0
          omega
      · rw [if_neg h]
        rw [ih (i + 1) ws]
        constructor
        · intro hall k hk1 hk2
          cases k with
          | zero => simpa using Nat.lt_of_not_ge h
          | succ k =>
            have := hall k (by simpa using hk1) (by simpa using hk2)
            simpa using this
        · intro hall k hk1 hk2
          have := hall (k + 1) (by simpa using hk1) (by simpa using hk2)
          simpa using this

theorem check_zero_padding_error (left : Bool) :
    ∀ (ps : List Nat) (i : Nat) (ws : List Nat) (e : nn_exception),
      check_zero_padding left i ps ws = .error e → e.is_configuration_error = true := by
  intro ps
  induction ps with
  | nil => intro i ws e h; simp [check_zero_padding] at h
  | cons p ps ih =>
    intro i ws e h
    cases ws with
    | nil => simp [check_zero_padding] at h
    | cons w ws =>
      simp only [check_zero_padding] at h
      by_cases hp : p ≥ w
      · rw [if_pos hp] at h
        cases h
        rfl
      · rw [if_neg hp] at h
        exact ih (i + 1) ws e h

theorem check_strides_ok :
    ∀ (ss : List Nat) (i : Nat),
      (check_strides i ss = .ok () ↔ ∀ k, k < ss.length → ss.getD k 0 ≠ 0) := by
  intro ss
  induction ss with
  | nil => intro i; simp [check_strides]
  | cons s ss ih =>
    intro i
    simp only [check_strides]
    by_cases h : s = 0
    · rw [if_pos h]
      constructor
      · intro hc; cases hc
      · intro hall
        have h0 := hall 0 (by simp)
        simp only [List.getD_cons_zero] at h0
        exact absurd h h0
    · rw [if_neg h]
      rw [ih (i + 1)]
      constructor
      · intro hall k hk
        cases k with
        | zero => simpa using h
        | succ k => simpa using hall k (by simpa using hk)
      · intro hall k hk
        simpa using hall (k + 1) (by simpa using hk)

theorem check_strides_error :
    ∀ (ss : List Nat) (i : Nat) (e : nn_exception),
      check_strides i ss = .error e → e.is_configuration_error = true := by
  intro ss
  induction ss with
  | nil => intro i e h; simp [check_strides] at h
  | cons s ss ih =>
    intro i e h
    simp only [check_strides] at h
    by_cases hs : s = 0
    · rw [if_pos hs] at h
      cases h
      rfl
    · rw [if_neg hs] at h
      exact ih (i + 1) e h

theorem ebind_ok {ε α : Type} (f : Unit → Except ε α) :
    (Except.ok () : Except ε Unit).bind f = f () := rfl

theorem ebind_error {ε α : Type} (e : ε) (f : Unit → Except ε α) :
    (Except.error e : Except ε Unit).bind f = .error e := rfl

theorem ok_ne_error {ε α : Type} (e : ε) (a : α) :
    (Except.ok a : Except ε α) ≠ .error e := by intro h; cases h

/-- `check` written as an explicit chain of binds (definitionally equal to
the do-block). -/
theorem check_eq (l : sparse_convolution_layer) :
    l.check =
      (check_window_sizes l.window_sizes).bind (fun _ =>
        if l.feature_map_connection_count < l.input_feature_map_count then
          .error .connection_count_below_input_count
        else if l.feature_map_connection_count < l.output_feature_map_count then
          .error .connection_count_below_output_count
        else if l.input_feature_map_count * l.output_feature_map_count <
            l.feature_map_connection_count then
          .error .connection_count_above_dense
        else
          (check_zero_padding true 0 l.left_zero_padding l.window_sizes).bind (fun _ =>
            (check_zero_padding false 0 l.right_zero_padding l.window_sizes).bind (fun _ =>
              check_strides 0 l.strides))) := by
  unfold sparse_convolution_layer.check
  cases check_window_sizes l.window_sizes with
  | ok u => cases u; split_ifs <;> rfl
  | error e => rfl

/-- `check` succeeds exactly when every construction invariant holds. -/
theorem check_ok_iff (l : sparse_convolution_layer) :
    l.check = .ok () ↔
      ((∀ w ∈ l.window_sizes, w ≠ 0) ∧
        l.input_feature_map_count ≤ l.feature_map_connection_count ∧
        l.output_feature_map_count ≤ l.feature_map_connection_count ∧
        l.feature_map_connection_count ≤
          l.input_feature_map_count * l.output_feature_map_count ∧
        (∀ k, k < l.left_zero_padding.length → k < l.window_sizes.length →
          l.left_zero_padding.getD k 0 < l.window_sizes.getD k 0) ∧
        (∀ k, k < l.right_zero_padding.length → k < l.window_sizes.length →
          l.right_zero_padding.getD k 0 < l.window_sizes.getD k 0) ∧
        (∀ k, k < l.strides.length → l.strides.getD k 0 ≠ 0)) := by
  rw [check_eq]
  rcases check_window_sizes_cases l.window_sizes with hw | hw <;> rw [hw]
  case inr =>
    rw [ebind_error]
    refine iff_of_false (by exact fun h => ok_ne_error _ _ h.symm) (fun hall => ?_)
    rw [(check_window_sizes_ok _).mpr hall.1] at hw
    exact ok_ne_error _ _ hw
  case inl =>
    have hws : ∀ w ∈ l.window_sizes, w ≠ 0 := (check_window_sizes_ok _).mp hw
    rw [ebind_ok]
    split_ifs with h1 h2 h3
    · exact iff_of_false (by simp) (fun hall => by omega)
    · exact iff_of_false (by simp) (fun hall => by omega)
    · exact iff_of_false (by simp) (fun hall => by omega)
    · cases hL : check_zero_padding true 0 l.left_zero_padding l.window_sizes with
      | error e =>
        rw [ebind_error]
        refine iff_of_false (fun h => ok_ne_error _ _ h.symm) (fun hall => ?_)
        rw [(check_zero_padding_ok true _ 0 _).mpr hall.2.2.2.2.1] at hL
        exact ok_ne_error _ _ hL
      | ok u =>
        cases u
        rw [ebind_ok]
        cases hR : check_zero_padding false 0 l.right_zero_padding l.window_sizes with
        | error e =>
          rw [ebind_error]
          refine iff_of_false (fun h => ok_ne_error _ _ h.symm) (fun hall => ?_)
          rw [(check_zero_padding_ok false _ 0 _).mpr hall.2.2.2.2.2.1] at hR
          exact ok_ne_error _ _ hR
        | ok u =>
          cases u
          rw [ebind_ok, check_strides_ok]
          constructor
          · intro h7
            exact ⟨hws, by omega, by omega, by omega,
              (check_zero_padding_ok true _ 0 _).mp hL,
              (check_zero_padding_ok false _ 0 _).mp hR, h7⟩
          · intro hall
            exact hall.2.2.2.2.2.2

/-- Every exception `check` throws is a configuration error. -/
theorem check_error_is_configuration (l : sparse_convolution_layer) (e : nn_exception)
    (h : l.check = .error e) : e.is_configuration_error = true := by
  rw [check_eq] at h
  rcases check_window_sizes_cases l.window_sizes with hw | hw <;> rw [hw] at h
  case inr =>
    rw [ebind_error] at h
    cases h
    rfl
  case inl =>
    rw [ebind_ok] at h
    split_ifs at h with h1 h2 h3
    · cases h; rfl
    · cases h; rfl
    · cases h; rfl
    · cases hL : check_zero_padding true 0 l.left_zero_padding l.window_sizes with
      | error e' =>
        rw [hL, ebind_error] at h
        cases h
        exact check_zero_padding_error true _ 0 _ _ hL
      | ok u =>
        cases u
        rw [hL, ebind_ok] at h
        cases hR : check_zero_padding false 0 l.right_zero_padding l.window_sizes with
        | error e' =>
          rw [hR, ebind_error] at h
          cases h
          exact check_zero_padding_error false _ 0 _ _ hR
        | ok u =>
          cases u
          rw [hR, ebind_ok] at h
          exact check_strides_error _ 0 _ h

theorem make_core_valid (ws : List Nat) (ifc ofc : Nat) (r : ℚ) (fmcc : Nat)
    (lzp rzp ss : List Nat) (b : Bool)
    (hl : lzp = [] ∨ lzp.length = ws.length)
    (hr : rzp = [] ∨ rzp.length = ws.length)
    (hs : ss = [] ∨ ss.length = ws.length) :
    sparse_convolution_layer.make_core ws ifc ofc r fmcc lzp rzp ss b =
      ((built_layer ws ifc ofc r fmcc lzp rzp ss b).check).bind
        (fun _ => .ok (built_layer ws ifc ofc r fmcc lzp rzp ss b)) := by
  have hl' : ¬ (lzp.length ≠ 0 ∧ lzp.length ≠ ws.length) := by
    rcases hl with h | h <;> simp [h]
  have hr' : ¬ (rzp.length ≠ 0 ∧ rzp.length ≠ ws.length) := by
    rcases hr with h | h <;> simp [h]
  have hs' : ¬ (ss.length ≠ 0 ∧ ss.length ≠ ws.length) := by
    rcases hs with h | h <;> simp [h]
  unfold sparse_convolution_layer.make_core
  rw [if_neg hl', if_neg hr', if_neg hs']
  rfl

theorem make_core_dim_error_left (ws : List Nat) (ifc ofc : Nat) (r : ℚ) (fmcc : Nat)
    (lzp rzp ss : List Nat) (b : Bool) (h1 : lzp ≠ []) (h2 : lzp.length ≠ ws.length) :
    sparse_convolution_layer.make_core ws ifc ofc r fmcc lzp rzp ss b =
      .error (.invalid_padding_dimension_count true lzp.length) := by
  unfold sparse_convolution_layer.make_core
  rw [if_pos ⟨by simpa using h1, h2⟩]
  rfl

theorem make_core_dim_error_right (ws : List Nat) (ifc ofc : Nat) (r : ℚ) (fmcc : Nat)
    (lzp rzp ss : List Nat) (b : Bool) (hl : lzp = [] ∨ lzp.length = ws.length)
    (h1 : rzp ≠ []) (h2 : rzp.length ≠ ws.length) :
    sparse_convolution_layer.make_core ws ifc ofc r fmcc lzp rzp ss b =
      .error (.invalid_padding_dimension_count false rzp.length) := by
  have hl' : ¬ (lzp.length ≠ 0 ∧ lzp.length ≠ ws.length) := by
    rcases hl with h | h <;> simp [h]
  unfold sparse_convolution_layer.make_core
  rw [if_neg hl', if_pos ⟨by simpa using h1, h2⟩]
  rfl

theorem make_core_dim_error_strides (ws : List Nat) (ifc ofc : Nat) (r : ℚ) (fmcc : Nat)
    (lzp rzp ss : List Nat) (b : Bool) (hl : lzp = [] ∨ lzp.length = ws.length)
    (hr : rzp = [] ∨ rzp.length = ws.length)
    (h1 : ss ≠ []) (h2 : ss.length ≠ ws.length) :
    sparse_convolution_layer.make_core ws ifc ofc r fmcc lzp rzp ss b =
      .error (.invalid_stride_dimension_count ss.length) := by
  have hl' : ¬ (lzp.length ≠ 0 ∧ lzp.length ≠ ws.length) := by
    rcases hl with h | h <;> simp [h]
  have hr' : ¬ (rzp.length ≠ 0 ∧ rzp.length ≠ ws.length) := by
    rcases hr with h | h <;> simp [h]
  unfold sparse_convolution_layer.make_core
  rw [if_neg hl', if_neg hr', if_pos ⟨by simpa using h1, h2⟩]
  rfl

theorem getD_effective_padding (lzp ws : List Nat)
    (hl : lzp = [] ∨ lzp.length = ws.length) (k : Nat) (hk : k < ws.length) :
    (if lzp.isEmpty then List.replicate ws.length 0 else lzp).getD k 0 =
      lzp.getD k 0 := by
  by_cases he : lzp.isEmpty
  · have hz : lzp = [] := by simpa using he
    subst hz
    rw [if_pos (by simp)]
    rw [List.getD_eq_getElem _ _ (by simpa using hk)]
    simp
  · rw [if_neg he]

theorem getD_effective_strides (ss ws : List Nat)
    (hs : ss = [] ∨ ss.length = ws.length) (k : Nat) (hk : k < ws.length) :
    (if ss.isEmpty then List.replicate ws.length 1 else ss).getD k 0 =
      ss.getD k 1 := by
  by_cases he : ss.isEmpty
  · have hz : ss = [] := by simpa using he
    subst hz
    rw [if_pos (by simp)]
    rw [List.getD_eq_getElem _ _ (by simpa using hk)]
    simp
  · rw [if_neg he]
    have hz : ss ≠ [] := by simpa using he
    have hlen : ss.length = ws.length := by
      rcases hs with h | h
      · exact absurd h hz
      · exact h
    rw [List.getD_eq_getElem _ _ (by omega), List.getD_eq_getElem _ _ (by omega)]

theorem length_effective (dflt : Nat) (xs ws : List Nat)
    (hx : xs = [] ∨ xs.length = ws.length) :
    (if xs.isEmpty then List.replicate ws.length dflt else xs).length = ws.length := by
  by_cases he : xs.isEmpty
  · rw [if_pos he]; simp
  · rw [if_neg he]
    rcases hx with h | h
    · exact absurd h (by simpa using he)
    · exact h

theorem exists_zero_window_iff (ws : List Nat) :
    (∃ w ∈ ws, w = 0) ↔ ∃ i, i < ws.length ∧ ws.getD i 0 = 0 := by
  constructor
  · rintro ⟨w, hw, rfl⟩
    obtain ⟨i, hi, hie⟩ := List.mem_iff_getElem.mp hw
    exact ⟨i, hi, by rw [List.getD_eq_getElem _ _ hi, hie]⟩
  · rintro ⟨i, hi, h⟩
    refine ⟨ws.getD i 0, ?_, h⟩
    rw [List.getD_eq_getElem _ _ hi]
    exact List.getElem_mem hi

/-- C4 (confirmed): a sparse convolution construction (on padding/stride
lists of valid dimension count) raises a `ConfigurationError` naming the
failing field if and only if some window size is 0, or the edge count is
smaller than `max(input, output)` feature-map count, or larger than
`input * output`, or some left or right padding is at least its window
size, or some stride is 0; otherwise it succeeds with the fields as given
(empty lists replaced by their documented defaults). -/
theorem make_configuration_error_iff (ws lzp rzp ss : List Nat)
    (ifc ofc fmcc : Nat) (b : Bool)
    (hl : lzp = [] ∨ lzp.length = ws.length)
    (hr : rzp = [] ∨ rzp.length = ws.length)
    (hs : ss = [] ∨ ss.length = ws.length) :
    ((∃ e, sparse_convolution_layer.make ws ifc ofc fmcc lzp rzp ss b = .error e ∧
        e.is_configuration_error = true) ↔
      ((∃ i, i < ws.length ∧ ws.getD i 0 = 0) ∨
        fmcc < max ifc ofc ∨
        ifc * ofc < fmcc ∨
        (∃ i, i < ws.length ∧ ws.getD i 0 ≤ lzp.getD i 0) ∨
        (∃ i, i < ws.length ∧ ws.getD i 0 ≤ rzp.getD i 0) ∨
        (∃ i, i < ws.length ∧ ss.getD i 1 = 0))) ∧
    (sparse_convolution_layer.make ws ifc ofc fmcc lzp rzp ss b =
        .ok (built_layer ws ifc ofc (-1) fmcc lzp rzp ss b) ↔
      ¬ ((∃ i, i < ws.length ∧ ws.getD i 0 = 0) ∨
        fmcc < max ifc ofc ∨
        ifc * ofc < fmcc ∨
        (∃ i, i < ws.length ∧ ws.getD i 0 ≤ lzp.getD i 0) ∨
        (∃ i, i < ws.length ∧ ws.getD i 0 ≤ rzp.getD i 0) ∨
        (∃ i, i < ws.length ∧ ss.getD i 1 = 0))) := by
  have hmk : sparse_convolution_layer.make ws ifc ofc fmcc lzp rzp ss b =
      ((built_layer ws ifc ofc (-1) fmcc lzp rzp ss b).check).bind
        (fun _ => .ok (built_layer ws ifc ofc (-1) fmcc lzp rzp ss b)) :=
    make_core_valid ws ifc ofc (-1) fmcc lzp rzp ss b hl hr hs
  have hLlen := length_effective 0 lzp ws hl
  have hRlen := length_effective 0 rzp ws hr
  have hSlen := length_effective 1 ss ws hs
  have key : (built_layer ws ifc ofc (-1) fmcc lzp rzp ss b).check = .ok () ↔
      ¬ ((∃ i, i < ws.length ∧ ws.getD i 0 = 0) ∨
        fmcc < max ifc ofc ∨
        ifc * ofc < fmcc ∨
        (∃ i, i < ws.length ∧ ws.getD i 0 ≤ lzp.getD i 0) ∨
        (∃ i, i < ws.length ∧ ws.getD i 0 ≤ rzp.getD i 0) ∨
        (∃ i, i < ws.length ∧ ss.getD i 1 = 0)) := by
    rw [check_ok_iff]
    unfold built_layer
    dsimp only
    constructor
    · rintro ⟨g1, g2, g3, g4, g5, g6, g7⟩ bad
      rcases bad with bad | bad | bad | bad | bad | bad
      · obtain ⟨i, hi, hzero⟩ := bad
        exact (g1 _ ((exists_zero_window_iff ws).mpr ⟨i, hi, hzero⟩).choose_spec.1)
          (by
            have := (exists_zero_window_iff ws).mpr ⟨i, hi, hzero⟩
            exact this.choose_spec.2)
      · simp only [lt_max_iff] at bad
        omega
      · omega
      · obtain ⟨i, hi, hpad⟩ := bad
        have := g5 i (by rw [hLlen]; exact hi) hi
        rw [getD_effective_padding lzp ws hl i hi] at this
        omega
      · obtain ⟨i, hi, hpad⟩ := bad
        have := g6 i (by rw [hRlen]; exact hi) hi
        rw [getD_effective_padding rzp ws hr i hi] at this
        omega
      · obtain ⟨i, hi, hstr⟩ := bad
        have := g7 i (by rw [hSlen]; exact hi)
        rw [getD_effective_strides ss ws hs i hi] at this
        exact this hstr
    · intro nb
      push_neg at nb
      obtain ⟨nb1, nb2, nb3, nb4, nb5, nb6⟩ := nb
      refine ⟨?_, ?_, ?_, by omega, ?_, ?_, ?_⟩
      · intro w hw
        intro hwz
        obtain ⟨i, hi, hie⟩ := (exists_zero_window_iff ws).mp ⟨w, hw, hwz⟩
        exact absurd hie (by simpa using nb1 i hi)
      · exact le_trans (le_max_left _ _) nb2
      · exact le_trans (le_max_right _ _) nb2
      · intro k hk1 hk2
        rw [getD_effective_padding lzp ws hl k hk2]
        have := nb4 k hk2
        omega
      · intro k hk1 hk2
        rw [getD_effective_padding rzp ws hr k hk2]
        have := nb5 k hk2
        omega
      · intro k hk
        rw [hSlen] at hk
        rw [getD_effective_strides ss ws hs k hk]
        exact nb6 k hk

  constructor
  · constructor
    · rintro ⟨e, herr, _⟩
      rw [hmk] at herr
      by_contra hbad
      rw [key.mpr hbad] at herr
      exact ok_ne_error _ _ herr
    · intro bad
      cases hc : (built_layer ws ifc ofc (-1) fmcc lzp rzp ss b).check with
      | ok u =>
        cases u
        exact absurd bad (key.mp hc)
      | error e =>
        refine ⟨e, ?_, check_error_is_configuration _ _ hc⟩
        rw [hmk, hc]
        rfl
  · constructor
    · intro hok
      rw [hmk] at hok
      cases hc : (built_layer ws ifc ofc (-1) fmcc lzp rzp ss b).check with
      | ok u =>
        cases u
        exact key.mp hc
      | error e =>
        rw [hc] at hok
        exact absurd hok.symm (ok_ne_error _ _)
    · intro nb
      rw [hmk, key.mpr nb]
      rfl

/-- Witness for C4 at a concrete valid configuration. -/
theorem make_configuration_error_iff_witness :
    ((∃ e, sparse_convolution_layer.make [3, 3] 8 4 16 [1, 1] [] [2, 2] false = .error e ∧
        e.is_configuration_error = true) ↔
      ((∃ i, i < ([3, 3] : List Nat).length ∧ ([3, 3] : List Nat).getD i 0 = 0) ∨
        16 < max 8 4 ∨
        8 * 4 < 16 ∨
        (∃ i, i < ([3, 3] : List Nat).length ∧
          ([3, 3] : List Nat).getD i 0 ≤ ([1, 1] : List Nat).getD i 0) ∨
        (∃ i, i < ([3, 3] : List Nat).length ∧
          ([3, 3] : List Nat).getD i 0 ≤ ([] : List Nat).getD i 0) ∨
        (∃ i, i < ([3, 3] : List Nat).length ∧ ([2, 2] : List Nat).getD i 1 = 0))) ∧
    (sparse_convolution_layer.make [3, 3] 8 4 16 [1, 1] [] [2, 2] false =
        .ok (built_layer [3, 3] 8 4 (-1) 16 [1, 1] [] [2, 2] false) ↔
      ¬ ((∃ i, i < ([3, 3] : List Nat).length ∧ ([3, 3] : List Nat).getD i 0 = 0) ∨
        16 < max 8 4 ∨
        8 * 4 < 16 ∨
        (∃ i, i < ([3, 3] : List Nat).length ∧
          ([3, 3] : List Nat).getD i 0 ≤ ([1, 1] : List Nat).getD i 0) ∨
        (∃ i, i < ([3, 3] : List Nat).length ∧
          ([3, 3] : List Nat).getD i 0 ≤ ([] : List Nat).getD i 0) ∨
        (∃ i, i < ([3, 3] : List Nat).length ∧ ([2, 2] : List Nat).getD i 1 = 0))) :=
  make_configuration_error_iff [3, 3] [1, 1] [] [2, 2] 8 4 16 false
    (Or.inr rfl) (Or.inl rfl) (Or.inr rfl)

/-! ## C8: edge count derived from the sparsity ratio -/

/-- C8 (confirmed): constructing a sparse convolution from a sparsity
ratio (and likewise the ratio branch of `read_proto`) sets the edge count
to `round(input_feature_map_count * output_feature_map_count * ratio)`
(the float expression `in * out * ratio + 0.5F` truncated, modelled
exactly over `ℚ`); in particular ratio 1/2 with 4 input and 6 output
feature maps yields 12 (see the witness). -/
theorem ratio_form_edge_count (ws : List Nat) (ifc ofc : Nat) (r : ℚ)
    (lzp rzp ss : List Nat) (b : Bool) (l : sparse_convolution_layer)
    (h : sparse_convolution_layer.make_from_ratio ws ifc ofc r lzp rzp ss b = .ok l) :
    l.feature_map_connection_count = (round ((ifc : ℚ) * (ofc : ℚ) * r)).toNat ∧
    l.feature_map_connection_sparsity_ratio = r ∧
    (∀ ic oc : Nat, read_proto_sparsity none (some r) ic oc =
      some (r, (round ((ic : ℚ) * (oc : ℚ) * r)).toNat)) := by
  have hder : ∀ ic oc : Nat, derived_connection_count ic oc r =
      (round ((ic : ℚ) * (oc : ℚ) * r)).toNat := by
    intro ic oc
    rw [round_eq]
    rfl
  have hmr : sparse_convolution_layer.make_from_ratio ws ifc ofc r lzp rzp ss b =
      sparse_convolution_layer.make_core ws ifc ofc r
        (derived_connection_count ifc ofc r) lzp rzp ss b := rfl
  rw [hmr] at h
  have hl' : lzp = [] ∨ lzp.length = ws.length := by
    by_contra hcon
    push_neg at hcon
    rw [make_core_dim_error_left ws ifc ofc r _ lzp rzp ss b hcon.1 hcon.2] at h
    exact absurd h.symm (ok_ne_error _ _)
  have hr' : rzp = [] ∨ rzp.length = ws.length := by
    by_contra hcon
    push_neg at hcon
    rw [make_core_dim_error_right ws ifc ofc r _ lzp rzp ss b hl' hcon.1 hcon.2] at h
    exact absurd h.symm (ok_ne_error _ _)
  have hs' : ss = [] ∨ ss.length = ws.length := by
    by_contra hcon
    push_neg at hcon
    rw [make_core_dim_error_strides ws ifc ofc r _ lzp rzp ss b hl' hr' hcon.1 hcon.2] at h
    exact absurd h.symm (ok_ne_error _ _)
  rw [make_core_valid ws ifc ofc r _ lzp rzp ss b hl' hr' hs'] at h
  cases hc : (built_layer ws ifc ofc r (derived_connection_count ifc ofc r)
      lzp rzp ss b).check with
  | error e =>
    rw [hc] at h
    exact absurd h.symm (ok_ne_error _ _)
  | ok u =>
    cases u
    rw [hc] at h
    have hld : l = built_layer ws ifc ofc r (derived_connection_count ifc ofc r)
        lzp rzp ss b := by cases h; rfl
    subst hld
    refine ⟨?_, rfl, ?_⟩
    · exact hder ifc ofc
    · intro ic oc
      show some (r, derived_connection_count ic oc r) = _
      rw [hder ic oc]

/-- Witness for C8: ratio 1/2, 4 input and 6 output feature maps give
edge count 12. -/
theorem ratio_form_edge_count_witness :
    ((built_layer [1] 4 6 (1/2) 12 [] [] [] true).feature_map_connection_count =
        (round ((4 : ℚ) * (6 : ℚ) * (1/2))).toNat ∧
      (built_layer [1] 4 6 (1/2) 12 [] [] [] true).feature_map_connection_sparsity_ratio =
        1/2 ∧
      (∀ ic oc : Nat, read_proto_sparsity none (some (1/2)) ic oc =
        some (1/2, (round ((ic : ℚ) * (oc : ℚ) * (1/2))).toNat))) ∧
    (round ((4 : ℚ) * (6 : ℚ) * (1/2))).toNat = 12 := by
  have h12 : derived_connection_count 4 6 (1/2) = 12 := by
    unfold derived_connection_count
    norm_num
    rfl
  have hmk : sparse_convolution_layer.make_from_ratio [1] 4 6 (1/2) [] [] [] true =
      .ok (built_layer [1] 4 6 (1/2) 12 [] [] [] true) := by
    have hstep : sparse_convolution_layer.make_from_ratio [1] 4 6 (1/2) [] [] [] true =
        sparse_convolution_layer.make_core [1] 4 6 (1/2)
          (derived_connection_count 4 6 (1/2)) [] [] [] true := rfl
    rw [hstep, h12,
      make_core_valid [1] 4 6 (1/2) 12 [] [] [] true (Or.inl rfl) (Or.inl rfl) (Or.inl rfl),
      show (built_layer [1] 4 6 (1/2) 12 [] [] [] true).check = .ok () from rfl]
    rfl
  have h12' : (round ((4 : ℚ) * (6 : ℚ) * (1/2))).toNat = 12 := by
    rw [round_eq]
    norm_num
    rfl
  exact ⟨ratio_form_edge_count [1] 4 6 (1/2) [] [] [] true
      (built_layer [1] 4 6 (1/2) 12 [] [] [] true) hmk, h12'⟩

/-! ## C10: empty-list defaults and dimension-count errors -/

/-- C10 (confirmed): both constructors (they share `make_core`; `make`
passes ratio `-1`, `make_from_ratio` the given ratio with the derived
count) accept empty padding/stride lists and substitute defaults of
length equal to the window count (zero paddings, unit strides), while a
non-empty list of the wrong length raises a dimension-count error — a
different error type from `check`'s configuration errors — before any
other validation runs. -/
theorem constructor_defaults_and_dimension_errors :
    (∀ (ws : List Nat) (ifc ofc : Nat) (r : ℚ) (fmcc : Nat) (b : Bool)
        (l : sparse_convolution_layer),
      sparse_convolution_layer.make_core ws ifc ofc r fmcc [] [] [] b = .ok l →
        l.left_zero_padding = List.replicate ws.length 0 ∧
        l.right_zero_padding = List.replicate ws.length 0 ∧
        l.strides = List.replicate ws.length 1) ∧
    (∀ (ws : List Nat) (ifc ofc : Nat) (r : ℚ) (fmcc : Nat) (b : Bool)
        (e : nn_exception),
      sparse_convolution_layer.make_core ws ifc ofc r fmcc [] [] [] b = .error e →
        e.is_dimension_count_error = false) ∧
    (∀ (ws lzp rzp ss : List Nat) (ifc ofc : Nat) (r : ℚ) (fmcc : Nat) (b : Bool),
      lzp ≠ [] → lzp.length ≠ ws.length →
        sparse_convolution_layer.make_core ws ifc ofc r fmcc lzp rzp ss b =
          .error (.invalid_padding_dimension_count true lzp.length) ∧
        (nn_exception.invalid_padding_dimension_count true lzp.length).is_dimension_count_error =
          true) ∧
    (∀ (ws lzp rzp ss : List Nat) (ifc ofc : Nat) (r : ℚ) (fmcc : Nat) (b : Bool),
      (lzp = [] ∨ lzp.length = ws.length) → rzp ≠ [] → rzp.length ≠ ws.length →
        sparse_convolution_layer.make_core ws ifc ofc r fmcc lzp rzp ss b =
          .error (.invalid_padding_dimension_count false rzp.length)) ∧
    (∀ (ws lzp rzp ss : List Nat) (ifc ofc : Nat) (r : ℚ) (fmcc : Nat) (b : Bool),
      (lzp = [] ∨ lzp.length = ws.length) → (rzp = [] ∨ rzp.length = ws.length) →
        ss ≠ [] → ss.length ≠ ws.length →
        sparse_convolution_layer.make_core ws ifc ofc r fmcc lzp rzp ss b =
          .error (.invalid_stride_dimension_count ss.length)) ∧
    (∀ (ws lzp rzp ss : List Nat) (ifc ofc fmcc : Nat) (b : Bool),
      sparse_convolution_layer.make ws ifc ofc fmcc lzp rzp ss b =
        sparse_convolution_layer.make_core ws ifc ofc (-1) fmcc lzp rzp ss b) ∧
    (∀ (ws lzp rzp ss : List Nat) (ifc ofc : Nat) (r : ℚ) (b : Bool),
      sparse_convolution_layer.make_from_ratio ws ifc ofc r lzp rzp ss b =
        sparse_convolution_layer.make_core ws ifc ofc r
          (derived_connection_count ifc ofc r) lzp rzp ss b) := by
  refine ⟨?_, ?_, ?_, ?_, ?_, fun _ _ _ _ _ _ _ _ => rfl, fun _ _ _ _ _ _ _ _ => rfl⟩
  · intro ws ifc ofc r fmcc b l h
    rw [make_core_valid ws ifc ofc r fmcc [] [] [] b (Or.inl rfl) (Or.inl rfl)
      (Or.inl rfl)] at h
    cases hc : (built_layer ws ifc ofc r fmcc [] [] [] b).check with
    | error e =>
      rw [hc] at h
      exact absurd h.symm (ok_ne_error _ _)
    | ok u =>
      cases u
      rw [hc] at h
      have hl : l = built_layer ws ifc ofc r fmcc [] [] [] b := by cases h; rfl
      subst hl
      unfold built_layer
      refine ⟨?_, ?_, ?_⟩ <;> simp
  · intro ws ifc ofc r fmcc b e h
    rw [make_core_valid ws ifc ofc r fmcc [] [] [] b (Or.inl rfl) (Or.inl rfl)
      (Or.inl rfl)] at h
    cases hc : (built_layer ws ifc ofc r fmcc [] [] [] b).check with
    | error e' =>
      rw [hc] at h
      have he : e' = e := by cases h; rfl
      subst he
      have := check_error_is_configuration _ _ hc
      cases e' <;> simp_all [nn_exception.is_configuration_error,
        nn_exception.is_dimension_count_error]
    | ok u =>
      cases u
      rw [hc] at h
      exact absurd h (ok_ne_error _ _)
  · intro ws lzp rzp ss ifc ofc r fmcc b h1 h2
    exact ⟨make_core_dim_error_left ws ifc ofc r fmcc lzp rzp ss b h1 h2, rfl⟩
  · intro ws lzp rzp ss ifc ofc r fmcc b hl h1 h2
    exact make_core_dim_error_right ws ifc ofc r fmcc lzp rzp ss b hl h1 h2
  · intro ws lzp rzp ss ifc ofc r fmcc b hl hr h1 h2
    exact make_core_dim_error_strides ws ifc ofc r fmcc lzp rzp ss b hl hr h1 h2

/-! ## Negative log likelihood: output shape -/

theorem nll_output_ok (i0 i1 : layer_configuration_specific)
    (hfm : i0.feature_map_count = i1.feature_map_count)
    (hn : i0.get_neuron_count_per_feature_map = i1.get_neuron_count_per_feature_map) :
    negative_log_likelihood_layer.get_output_layer_configuration_specific [i0, i1] =
      .ok ⟨1, i0.dimension_sizes⟩ := by
  unfold negative_log_likelihood_layer.get_output_layer_configuration_specific
  simp only [List.getD_cons_zero, List.getD_cons_succ]
  rw [if_neg (by simpa using hfm), if_neg (by simpa using hn),
    if_neg (by simp : ¬ (2 < ([i0, i1] : List layer_configuration_specific).length))]
  rfl

theorem nll_output_ok_scaled (i0 i1 i2 : layer_configuration_specific)
    (hfm : i0.feature_map_count = i1.feature_map_count)
    (hn : i0.get_neuron_count_per_feature_map = i1.get_neuron_count_per_feature_map)
    (h2fm : i2.feature_map_count = 1)
    (h2n : i2.get_neuron_count_per_feature_map = i0.get_neuron_count_per_feature_map) :
    negative_log_likelihood_layer.get_output_layer_configuration_specific [i0, i1, i2] =
      .ok ⟨1, i0.dimension_sizes⟩ := by
  unfold negative_log_likelihood_layer.get_output_layer_configuration_specific
  simp only [List.getD_cons_zero, List.getD_cons_succ]
  rw [if_neg (by simpa using hfm), if_neg (by simpa using hn),
    if_pos (by simp : 2 < ([i0, i1, i2] : List layer_configuration_specific).length),
    if_neg (by simpa using h2fm), if_neg (by simpa using h2n)]
  rfl

theorem nll_output_mismatch (i0 i1 : layer_configuration_specific)
    (hfm : i0.feature_map_count ≠ i1.feature_map_count) :
    negative_log_likelihood_layer.get_output_layer_configuration_specific [i0, i1] =
      .error (.nll_feature_map_count_mismatch i0.feature_map_count i1.feature_map_count) := by
  unfold negative_log_likelihood_layer.get_output_layer_configuration_specific
  simp only [List.getD_cons_zero, List.getD_cons_succ]
  rw [if_pos (by simpa using hfm)]
  rfl

/-- C7 (confirmed): for `negative_log_likelihood` with two inputs sharing
feature-map count and per-feature-map neuron count (optionally a third
input with one feature map and the first input's per-feature-map neuron
count), the output shape has feature-map count 1 and the first input's
spatial sizes; mismatched feature-map counts raise the mismatch
exception naming both counts. -/
theorem nll_output_shape (i0 i1 : layer_configuration_specific)
    (hn : i0.get_neuron_count_per_feature_map = i1.get_neuron_count_per_feature_map) :
    (i0.feature_map_count = i1.feature_map_count →
      negative_log_likelihood_layer.get_output_layer_configuration_specific [i0, i1] =
        .ok ⟨1, i0.dimension_sizes⟩) ∧
    (∀ i2 : layer_configuration_specific,
      i0.feature_map_count = i1.feature_map_count →
      i2.feature_map_count = 1 →
      i2.get_neuron_count_per_feature_map = i0.get_neuron_count_per_feature_map →
      negative_log_likelihood_layer.get_output_layer_configuration_specific [i0, i1, i2] =
        .ok ⟨1, i0.dimension_sizes⟩) ∧
    (i0.feature_map_count ≠ i1.feature_map_count →
      negative_log_likelihood_layer.get_output_layer_configuration_specific [i0, i1] =
        .error (.nll_feature_map_count_mismatch i0.feature_map_count
          i1.feature_map_count)) :=
  ⟨fun hfm => nll_output_ok i0 i1 hfm hn,
    fun i2 hfm h2fm h2n => nll_output_ok_scaled i0 i1 i2 hfm hn h2fm h2n,
    fun hfm => nll_output_mismatch i0 i1 hfm⟩

/-- Witness for C7 at the spec's scenario shapes: feature-map counts 10
and 5 with spatial dims `[1]` raise the mismatch naming 10 and 5. -/
theorem nll_output_shape_witness :
    ((⟨10, [1]⟩ : layer_configuration_specific).feature_map_count =
        (⟨5, [1]⟩ : layer_configuration_specific).feature_map_count →
      negative_log_likelihood_layer.get_output_layer_configuration_specific
          [⟨10, [1]⟩, ⟨5, [1]⟩] =
        .ok ⟨1, (⟨10, [1]⟩ : layer_configuration_specific).dimension_sizes⟩) ∧
    (∀ i2 : layer_configuration_specific,
      (⟨10, [1]⟩ : layer_configuration_specific).feature_map_count =
        (⟨5, [1]⟩ : layer_configuration_specific).feature_map_count →
      i2.feature_map_count = 1 →
      i2.get_neuron_count_per_feature_map =
        (⟨10, [1]⟩ : layer_configuration_specific).get_neuron_count_per_feature_map →
      negative_log_likelihood_layer.get_output_layer_configuration_specific
          [⟨10, [1]⟩, ⟨5, [1]⟩, i2] =
        .ok ⟨1, (⟨10, [1]⟩ : layer_configuration_specific).dimension_sizes⟩) ∧
    ((⟨10, [1]⟩ : layer_configuration_specific).feature_map_count ≠
        (⟨5, [1]⟩ : layer_configuration_specific).feature_map_count →
      negative_log_likelihood_layer.get_output_layer_configuration_specific
          [⟨10, [1]⟩, ⟨5, [1]⟩] =
        .error (.nll_feature_map_count_mismatch
          (⟨10, [1]⟩ : layer_configuration_specific).feature_map_count
          (⟨5, [1]⟩ : layer_configuration_specific).feature_map_count)) :=
  nll_output_shape ⟨10, [1]⟩ ⟨5, [1]⟩ rfl

/-! ## C3: compute cost per phase -/

/-- The three switch cases of the sparse convolution cost share one body,
so the estimate is action-independent. -/
theorem sc_flops_action_independent (l : sparse_convolution_layer)
    (inputs : List layer_configuration_specific) (k : Nat) :
    l.get_flops_per_entry inputs .forward = l.get_flops_per_entry inputs (.backward_data k) ∧
    l.get_flops_per_entry inputs .forward = l.get_flops_per_entry inputs .backward_weights :=
  ⟨rfl, rfl⟩

/-- C3 (corrected): the claim's "distinct value per phase" fails for
sparse convolution — its switch shares one case body across forward,
backward-data and backward-weights, so the three estimates are equal
(see the counterexample); `negative_log_likelihood` does return distinct
non-zero values for forward (`3·f·n`) and backward-data (`2·f·n`) on
non-degenerate shapes, and `0` for the unsupported backward-weights
phase. -/
theorem flops_per_entry_phases (l : sparse_convolution_layer)
    (inputs : List layer_configuration_specific) (k : Nat)
    (i0 i1 : layer_configuration_specific)
    (hfm : i0.feature_map_count = i1.feature_map_count)
    (hn : i0.get_neuron_count_per_feature_map = i1.get_neuron_count_per_feature_map)
    (hpos : 0 < i0.feature_map_count * i0.get_neuron_count_per_feature_map) :
    (l.get_flops_per_entry inputs .forward =
        l.get_flops_per_entry inputs (.backward_data k) ∧
      l.get_flops_per_entry inputs .forward =
        l.get_flops_per_entry inputs .backward_weights) ∧
    (negative_log_likelihood_layer.get_flops_per_entry [i0, i1] .forward =
        .ok (3 * (i0.feature_map_count * i0.get_neuron_count_per_feature_map)) ∧
      (∀ j, j < 2 →
        negative_log_likelihood_layer.get_flops_per_entry [i0, i1] (.backward_data j) =
          .ok (2 * (i0.feature_map_count * i0.get_neuron_count_per_feature_map))) ∧
      negative_log_likelihood_layer.get_flops_per_entry [i0, i1] .forward ≠
        negative_log_likelihood_layer.get_flops_per_entry [i0, i1] (.backward_data 0) ∧
      negative_log_likelihood_layer.get_flops_per_entry [i0, i1] .backward_weights =
        .ok 0) := by
  have hout := nll_output_ok i0 i1 hfm hn
  have hfwd : negative_log_likelihood_layer.get_flops_per_entry [i0, i1] .forward =
      .ok (3 * (i0.feature_map_count * i0.get_neuron_count_per_feature_map)) := by
    unfold negative_log_likelihood_layer.get_flops_per_entry
    rw [hout]
    show Except.ok _ = _
    congr 1
    unfold layer_configuration_specific.get_neuron_count
      layer_configuration_specific.get_neuron_count_per_feature_map
    simp only [List.getD_cons_zero]
    ring
  have hbd : ∀ j, j < 2 →
      negative_log_likelihood_layer.get_flops_per_entry [i0, i1] (.backward_data j) =
        .ok (2 * (i0.feature_map_count * i0.get_neuron_count_per_feature_map)) := by
    intro j hj
    unfold negative_log_likelihood_layer.get_flops_per_entry
    interval_cases j
    · show Except.ok _ = _
      congr 1
      unfold layer_configuration_specific.get_neuron_count
      simp only [List.getD_cons_zero]
      ring
    · show Except.ok _ = _
      congr 1
      unfold layer_configuration_specific.get_neuron_count
      simp only [List.getD_cons_succ, List.getD_cons_zero]
      rw [← hfm, ← hn]
      ring
  refine ⟨sc_flops_action_independent l inputs k, hfwd, hbd, ?_, rfl⟩
  rw [hfwd, hbd 0 (by omega)]
  intro h
  have := Except.ok.inj h
  omega

/-- C3 counterexample: at a concrete configuration the sparse convolution
cost is the same `.ok 2` for all three phases, refuting pairwise
distinctness. -/
theorem sparse_convolution_flops_not_distinct :
    sparse_convolution_layer.get_flops_per_entry
        ⟨[1], 1, 1, -1, 1, [0], [0], [1], true⟩ [⟨1, [1]⟩] .forward = .ok 2 ∧
    sparse_convolution_layer.get_flops_per_entry
        ⟨[1], 1, 1, -1, 1, [0], [0], [1], true⟩ [⟨1, [1]⟩] (.backward_data 0) = .ok 2 ∧
    sparse_convolution_layer.get_flops_per_entry
        ⟨[1], 1, 1, -1, 1, [0], [0], [1], true⟩ [⟨1, [1]⟩] .backward_weights = .ok 2 :=
  ⟨rfl, rfl, rfl⟩

/-- Witness for C3's (amended) theorem at a concrete configuration. -/
theorem flops_per_entry_phases_witness :
    ((sparse_convolution_layer.get_flops_per_entry
          ⟨[1], 1, 1, -1, 1, [0], [0], [1], true⟩ [⟨1, [1]⟩] .forward =
        sparse_convolution_layer.get_flops_per_entry
          ⟨[1], 1, 1, -1, 1, [0], [0], [1], true⟩ [⟨1, [1]⟩] (.backward_data 5) ∧
      sparse_convolution_layer.get_flops_per_entry
          ⟨[1], 1, 1, -1, 1, [0], [0], [1], true⟩ [⟨1, [1]⟩] .forward =
        sparse_convolution_layer.get_flops_per_entry
          ⟨[1], 1, 1, -1, 1, [0], [0], [1], true⟩ [⟨1, [1]⟩] .backward_weights) ∧
    (negative_log_likelihood_layer.get_flops_per_entry [⟨10, [1]⟩, ⟨10, [1]⟩] .forward =
        .ok (3 * ((⟨10, [1]⟩ : layer_configuration_specific).feature_map_count *
          (⟨10, [1]⟩ : layer_configuration_specific).get_neuron_count_per_feature_map)) ∧
      (∀ j, j < 2 →
        negative_log_likelihood_layer.get_flops_per_entry [⟨10, [1]⟩, ⟨10, [1]⟩]
            (.backward_data j) =
          .ok (2 * ((⟨10, [1]⟩ : layer_configuration_specific).feature_map_count *
            (⟨10, [1]⟩ : layer_configuration_specific).get_neuron_count_per_feature_map))) ∧
      negative_log_likelihood_layer.get_flops_per_entry [⟨10, [1]⟩, ⟨10, [1]⟩] .forward ≠
        negative_log_likelihood_layer.get_flops_per_entry [⟨10, [1]⟩, ⟨10, [1]⟩]
          (.backward_data 0) ∧
      negative_log_likelihood_layer.get_flops_per_entry [⟨10, [1]⟩, ⟨10, [1]⟩]
        .backward_weights = .ok 0)) :=
  flops_per_entry_phases ⟨[1], 1, 1, -1, 1, [0], [0], [1], true⟩ [⟨1, [1]⟩] 5
    ⟨10, [1]⟩ ⟨10, [1]⟩ rfl rfl (by decide)

/-! ## C2: forward/backward shape round trip -/

theorem range_mapM_ok (f : Nat → Except nn_exception Nat) :
    ∀ (n : Nat) (ys : List Nat), (List.range n).mapM f = .ok ys →
      ys.length = n ∧ ∀ i, i < n → f i = .ok (ys.getD i 0) := by
  intro n
  induction n with
  | zero =>
    intro ys h
    rw [List.range_zero, List.mapM_nil] at h
    have h' : (Except.ok ([] : List Nat) : Except nn_exception (List Nat)) = .ok ys := h
    cases h'
    exact ⟨rfl, fun i hi => absurd hi (by omega)⟩
  | succ n ih =>
    intro ys h
    rw [List.range_succ, List.mapM_append, List.mapM_cons, List.mapM_nil] at h
    cases hx : (List.range n).mapM f with
    | error e =>
      rw [hx] at h
      exact absurd h.symm (ok_ne_error _ _)
    | ok xs =>
      rw [hx] at h
      cases hfn : f n with
      | error e =>
        rw [hfn] at h
        exact absurd h.symm (ok_ne_error _ _)
      | ok a =>
        rw [hfn] at h
        have hys : ys = xs ++ [a] := by
          have h' : (Except.ok (xs ++ [a]) : Except nn_exception (List Nat)) = .ok ys := h
          cases h'
          rfl
        subst hys
        obtain ⟨hlen, hall⟩ := ih xs hx
        constructor
        · simp [hlen]
        · intro i hi
          by_cases hin : i < n
          · have := hall i hin
            rw [List.getD_eq_getElem _ _ (by simp; omega),
              List.getElem_append_left (by omega)]
            rw [List.getD_eq_getElem _ _ (by omega)] at this
            exact this
          · have hieq : i = n := by omega
            subst hieq
            rw [List.getD_eq_getElem _ _ (by simp; omega)]
            rw [List.getElem_append_right (by omega)]
            simpa [hlen] using hfn

/-- Forward inference as an explicit chain (definitionally equal to the
do-block). -/
theorem forward_eq (l : sparse_convolution_layer)
    (inputs : List layer_configuration_specific) :
    l.get_output_layer_configuration_specific inputs =
      (if (inputs.getD 0 default).feature_map_count ≠ l.input_feature_map_count then
        .error (.feature_map_count_mismatch l.input_feature_map_count
          (inputs.getD 0 default).feature_map_count)
      else if (inputs.getD 0 default).get_dimension_count ≠ l.window_sizes.length then
        .error (.dimension_count_mismatch l.window_sizes.length
          (inputs.getD 0 default).get_dimension_count)
      else
        ((List.range l.window_sizes.length).mapM (fun i =>
          if (inputs.getD 0 default).dimension_sizes.getD i 0 +
              l.left_zero_padding.getD i 0 + l.right_zero_padding.getD i 0 <
              l.window_sizes.getD i 0 then
            (Except.error (.window_larger_than_padded_input
              ((inputs.getD 0 default).dimension_sizes.getD i 0 +
                l.left_zero_padding.getD i 0 + l.right_zero_padding.getD i 0) i
              (l.window_sizes.getD i 0)) : Except nn_exception Nat)
          else
            .ok (((inputs.getD 0 default).dimension_sizes.getD i 0 +
                l.left_zero_padding.getD i 0 + l.right_zero_padding.getD i 0 -
              l.window_sizes.getD i 0) / l.strides.getD i 0 + 1))).bind
          (fun dims => .ok ⟨l.output_feature_map_count, dims⟩)) := by
  unfold sparse_convolution_layer.get_output_layer_configuration_specific
  rfl

/-- What forward inference guarantees when it succeeds. -/
theorem forward_ok_elim (l : sparse_convolution_layer)
    (inputs : List layer_configuration_specific) (out : layer_configuration_specific)
    (h : l.get_output_layer_configuration_specific inputs = .ok out) :
    (inputs.getD 0 default).feature_map_count = l.input_feature_map_count ∧
    (inputs.getD 0 default).dimension_sizes.length = l.window_sizes.length ∧
    out.feature_map_count = l.output_feature_map_count ∧
    out.dimension_sizes.length = l.window_sizes.length ∧
    (∀ i, i < l.window_sizes.length →
      l.window_sizes.getD i 0 ≤
        (inputs.getD 0 default).dimension_sizes.getD i 0 +
          l.left_zero_padding.getD i 0 + l.right_zero_padding.getD i 0 ∧
      out.dimension_sizes.getD i 0 =
        ((inputs.getD 0 default).dimension_sizes.getD i 0 +
            l.left_zero_padding.getD i 0 + l.right_zero_padding.getD i 0 -
          l.window_sizes.getD i 0) / l.strides.getD i 0 + 1) := by
  rw [forward_eq] at h
  by_cases h1 : (inputs.getD 0 default).feature_map_count = l.input_feature_map_count
  case neg =>
    rw [if_pos (by simpa using h1)] at h
    exact absurd h.symm (ok_ne_error _ _)
  rw [if_neg (by simpa using h1)] at h
  by_cases h2 : (inputs.getD 0 default).get_dimension_count = l.window_sizes.length
  case neg =>
    rw [if_pos (by simpa using h2)] at h
    exact absurd h.symm (ok_ne_error _ _)
  rw [if_neg (by simpa using h2)] at h
  cases hm : (List.range l.window_sizes.length).mapM (fun i =>
      if (inputs.getD 0 default).dimension_sizes.getD i 0 +
          l.left_zero_padding.getD i 0 + l.right_zero_padding.getD i 0 <
          l.window_sizes.getD i 0 then
        (Except.error (.window_larger_than_padded_input
          ((inputs.getD 0 default).dimension_sizes.getD i 0 +
            l.left_zero_padding.getD i 0 + l.right_zero_padding.getD i 0) i
          (l.window_sizes.getD i 0)) : Except nn_exception Nat)
      else
        .ok (((inputs.getD 0 default).dimension_sizes.getD i 0 +
            l.left_zero_padding.getD i 0 + l.right_zero_padding.getD i 0 -
          l.window_sizes.getD i 0) / l.strides.getD i 0 + 1)) with
  | error e =>
    rw [hm] at h
    exact absurd h.symm (ok_ne_error _ _)
  | ok dims =>
    rw [hm] at h
    have hout : out = ⟨l.output_feature_map_count, dims⟩ := by
      have h' : (Except.ok (⟨l.output_feature_map_count, dims⟩ :
          layer_configuration_specific) : Except nn_exception _) = .ok out := h
      cases h'
      rfl
    subst hout
    obtain ⟨hlen, hall⟩ := range_mapM_ok _ _ _ hm
    refine ⟨h1, h2, rfl, hlen, ?_⟩
    intro i hi
    have hfi := hall i hi
    simp only [] at hfi
    by_cases hw : (inputs.getD 0 default).dimension_sizes.getD i 0 +
        l.left_zero_padding.getD i 0 + l.right_zero_padding.getD i 0 <
        l.window_sizes.getD i 0
    · rw [if_pos hw] at hfi
      exact absurd hfi (by exact fun hh => ok_ne_error _ _ hh.symm)
    · rw [if_neg hw] at hfi
      have hval : (((inputs.getD 0 default).dimension_sizes.getD i 0 +
          l.left_zero_padding.getD i 0 + l.right_zero_padding.getD i 0 -
            l.window_sizes.getD i 0) / l.strides.getD i 0 + 1) = dims.getD i 0 :=
        Except.ok.inj hfi
      exact ⟨by omega, hval.symm⟩

/-- Backward inference in closed form once the two shape checks pass. -/
theorem backward_eq (l : sparse_convolution_layer)
    (out_cfg : layer_configuration_specific)
    (h1 : out_cfg.feature_map_count = l.output_feature_map_count)
    (h2 : out_cfg.dimension_sizes.length = l.window_sizes.length) :
    l.get_input_layer_configuration_specific out_cfg =
      .ok (true, ⟨l.output_feature_map_count,
        (List.range l.window_sizes.length).map (fun i =>
          (out_cfg.dimension_sizes.getD i 0 - 1) * l.strides.getD i 0 +
              l.window_sizes.getD i 0 -
            l.left_zero_padding.getD i 0 - l.right_zero_padding.getD i 0)⟩) := by
  unfold sparse_convolution_layer.get_input_layer_configuration_specific
  rw [if_neg (by simpa using h1),
    if_neg (by simpa [layer_configuration_specific.get_dimension_count] using h2)]
  rfl

/-- C2 (corrected): the round trip does not recover the input shape in
general (see the counterexample: backward seeds the recovered
feature-map count with `output_feature_map_count`, and flooring by the
stride is not inverted).  What holds: backward is always supported
(`true`), and it recovers the original input exactly when additionally
the input and output feature-map counts agree and every stride divides
its padded-input-minus-window extent. -/
theorem shape_round_trip (l : sparse_convolution_layer)
    (inputs : List layer_configuration_specific) (out : layer_configuration_specific)
    (hfm : l.input_feature_map_count = l.output_feature_map_count)
    (hfwd : l.get_output_layer_configuration_specific inputs = .ok out)
    (hdiv : ∀ i, i < l.window_sizes.length →
      l.strides.getD i 0 ∣
        ((inputs.getD 0 default).dimension_sizes.getD i 0 +
            l.left_zero_padding.getD i 0 + l.right_zero_padding.getD i 0 -
          l.window_sizes.getD i 0)) :
    l.get_input_layer_configuration_specific out = .ok (true, inputs.getD 0 default) := by
  obtain ⟨hifm, hilen, hofm, holen, hdims⟩ := forward_ok_elim l inputs out hfwd
  rw [backward_eq l out hofm holen]
  have hd : (List.range l.window_sizes.length).map (fun i =>
      (out.dimension_sizes.getD i 0 - 1) * l.strides.getD i 0 +
          l.window_sizes.getD i 0 -
        l.left_zero_padding.getD i 0 - l.right_zero_padding.getD i 0) =
      (inputs.getD 0 default).dimension_sizes := by
    apply List.ext_getElem
    · simp only [List.length_map, List.length_range]
      omega
    · intro i hi1 hi2
      have hiw : i < l.window_sizes.length := by simpa using hi1
      obtain ⟨hwle, hval⟩ := hdims i hiw
      rw [List.getElem_map, List.getElem_range]
      rw [← List.getD_eq_getElem _ 0 hi2]
      rw [hval]
      simp only [Nat.add_sub_cancel]
      rw [Nat.div_mul_cancel (hdiv i hiw)]
      omega
  rw [hd]
  have : (⟨l.output_feature_map_count,
      (inputs.getD 0 default).dimension_sizes⟩ : layer_configuration_specific) =
      inputs.getD 0 default := by
    have : (inputs.getD 0 default) =
        ⟨(inputs.getD 0 default).feature_map_count,
          (inputs.getD 0 default).dimension_sizes⟩ := rfl
    rw [this, hifm, hfm]
  rw [this]

/-- Witness for C2 at the spec's scenario: 3x3 windows, 8 feature maps,
10x10 input, unit strides — forward gives 8x8 and backward recovers
10x10 exactly. -/
theorem shape_round_trip_witness :
    sparse_convolution_layer.get_input_layer_configuration_specific
        ⟨[3, 3], 8, 8, -1, 8, [0, 0], [0, 0], [1, 1], true⟩ ⟨8, [8, 8]⟩ =
      .ok (true, ⟨8, [10, 10]⟩) :=
  shape_round_trip ⟨[3, 3], 8, 8, -1, 8, [0, 0], [0, 0], [1, 1], true⟩
    [⟨8, [10, 10]⟩] ⟨8, [8, 8]⟩ rfl rfl (by decide)

/-- C2 counterexample: window `[2]`, stride `[2]`, 1 input and 2 output
feature maps, input spatial size 3.  Forward accepts and yields `⟨2, [1]⟩`;
backward then returns `⟨2, [2]⟩`, not the original `⟨1, [3]⟩` — both the
feature-map count and the spatial size differ. -/
theorem shape_round_trip_cex :
    sparse_convolution_layer.get_output_layer_configuration_specific
        ⟨[2], 1, 2, -1, 2, [0], [0], [2], true⟩ [⟨1, [3]⟩] = .ok ⟨2, [1]⟩ ∧
    sparse_convolution_layer.get_input_layer_configuration_specific
        ⟨[2], 1, 2, -1, 2, [0], [0], [2], true⟩ ⟨2, [1]⟩ = .ok (true, ⟨2, [2]⟩) ∧
    (⟨2, [2]⟩ : layer_configuration_specific) ≠ ⟨1, [3]⟩ :=
  ⟨rfl, rfl, by decide⟩

/-! ## C9: compressed-row representation -/

theorem fill_data_custom_foldl (f : Nat → List Nat) :
    ∀ (n : Nat) (c0 o0 : List Nat),
      (List.range n).foldl
          (fun (acc : List Nat × List Nat) o => (acc.1 ++ f o, acc.2 ++ [acc.1.length]))
          (c0, o0) =
        (c0 ++ (List.range n).flatMap f,
          o0 ++ (List.range n).map (fun o =>
            c0.length + ((List.range o).flatMap f).length)) := by
  intro n
  induction n with
  | zero => intro c0 o0; simp
  | succ n ih =>
    intro c0 o0
    rw [List.range_succ, List.foldl_append, ih]
    simp only [List.foldl_cons, List.foldl_nil, List.flatMap_append, List.map_append]
    simp [List.append_assoc, List.flatMap_cons, List.length_append]

/-- The column list of `fill_data_custom` is the concatenation of the
rows' connected-input lists. -/
theorem fill_data_custom_cols (cm : List Bool) (ofc ifc : Nat) :
    (fill_data_custom cm ofc ifc).1 =
      (List.range ofc).flatMap (row_connected_input_list cm ifc) := by
  show ((List.range ofc).foldl
      (fun (acc : List Nat × List Nat) o =>
        (acc.1 ++ row_connected_input_list cm ifc o, acc.2 ++ [acc.1.length]))
      ([], [])).1 = _
  rw [fill_data_custom_foldl]
  simp

/-- The offset table of `fill_data_custom` lists the prefix lengths. -/
theorem fill_data_custom_offsets (cm : List Bool) (ofc ifc : Nat) :
    (fill_data_custom cm ofc ifc).2 =
      (List.range (ofc + 1)).map (fun o =>
        ((List.range o).flatMap (row_connected_input_list cm ifc)).length) := by
  show ((List.range ofc).foldl
        (fun (acc : List Nat × List Nat) o =>
          (acc.1 ++ row_connected_input_list cm ifc o, acc.2 ++ [acc.1.length]))
        ([], [])).2 ++
      [((List.range ofc).foldl
        (fun (acc : List Nat × List Nat) o =>
          (acc.1 ++ row_connected_input_list cm ifc o, acc.2 ++ [acc.1.length]))
        ([], [])).1.length] = _
  rw [fill_data_custom_foldl]
  rw [List.range_succ, List.map_append]
  simp

theorem count_true_eq_positions (l : List Bool) :
    count_true l = ((List.range l.length).filter (fun k => l.getD k false)).length := by
  induction l using List.reverseRecOn with
  | nil => rfl
  | append_singleton t b ih =>
    unfold count_true at ih ⊢
    rw [List.filter_append, List.length_append]
    have hlen : (t ++ [b]).length = t.length + 1 := by simp
    rw [hlen, List.range_succ, List.filter_append, List.length_append]
    have h1 : List.filter (fun k => (t ++ [b]).getD k false) (List.range t.length) =
        List.filter (fun k => t.getD k false) (List.range t.length) := by
      apply List.filter_congr
      intro k hk
      rw [List.getD_append _ _ _ _ (by simpa using hk)]
    have h2 : (t ++ [b]).getD t.length false = b := by
      rw [List.getD_append_right _ _ _ _ (le_refl _)]
      simp
    rw [h1, ← ih]
    congr 1
    cases b <;> simp [List.filter, h2]

theorem flatMap_rows_length (cm : List Bool) (ifc : Nat) :
    ∀ n : Nat, ((List.range n).flatMap (row_connected_input_list cm ifc)).length =
      ((List.range (n * ifc)).filter (fun k => cm.getD k false)).length := by
  intro n
  induction n with
  | zero => simp
  | succ n ih =>
    rw [List.range_succ, List.flatMap_append, List.length_append, ih]
    have hr : (n + 1) * ifc = n * ifc + ifc := by ring
    rw [hr, List.range_add, List.filter_append, List.length_append]
    congr 1
    rw [List.filter_map, List.length_map]
    simp only [List.flatMap_cons, List.flatMap_nil, List.append_nil]
    unfold row_connected_input_list
    apply congrArg List.length
    apply List.filter_congr
    intro i _
    rfl

/-- Total length of all rows is the number of `true` cells, for a matrix
of the exact size. -/
theorem flatMap_rows_length_eq_count (cm : List Bool) (ofc ifc : Nat)
    (hlen : cm.length = ofc * ifc) :
    ((List.range ofc).flatMap (row_connected_input_list cm ifc)).length =
      count_true cm := by
  rw [flatMap_rows_length, count_true_eq_positions, hlen]

/-- Prefix lengths are monotone. -/
theorem flatMap_prefix_mono (f : Nat → List Nat) (a b : Nat) (hab : a ≤ b) :
    ((List.range a).flatMap f).length ≤ ((List.range b).flatMap f).length := by
  have : b = a + (b - a) := by omega
  rw [this, List.range_add, List.flatMap_append, List.length_append]
  omega

theorem attempt_finish_some (x : Option gen_state × Nat) (m : List Bool) (p : Nat)
    (h : attempt_finish x = (some m, p)) :
    ∃ st, x = (some st, p) ∧ m = st.local_connection_matrix := by
  rcases x with ⟨st? , pos⟩
  cases st? with
  | none => simp [attempt_finish] at h
  | some st =>
    simp only [attempt_finish, Prod.mk.injEq] at h
    exact ⟨st, by simp [h.1.symm, h.2], (Option.some.inj h.1).symm⟩

theorem register_connection_matrix_length (ifc mo moov mi miov : Nat) (st : gen_state)
    (o i : Nat) (e : Bool) (p : Nat) :
    (register_connection ifc mo moov mi miov st o i e p).local_connection_matrix.length =
      st.local_connection_matrix.length := by
  simp [register_connection, List.length_set]

theorem place_edges_matrix_length (g : Nat → Nat) (ifc mo moov mi miov : Nat) :
    ∀ (r : Nat) (st st' : gen_state) (p : Nat),
      place_edges g ifc mo moov mi miov r st = (some st', p) →
      st'.local_connection_matrix.length = st.local_connection_matrix.length := by
  intro r
  induction r with
  | zero =>
    intro st st' p h
    simp only [place_edges, Prod.mk.injEq] at h
    rw [← Option.some.inj h.1]
  | succ r ih =>
    intro st st' p h
    rw [place_edges] at h
    rcases hf : find_connection_pair g ifc st with ⟨op, e', p'⟩
    rw [hf] at h
    cases op with
    | none => simp at h
    | some pair =>
      rcases pair with ⟨o, i⟩
      simp only at h
      rw [ih _ _ _ h]
      exact register_connection_matrix_length ifc mo moov mi miov st o i e' p'

theorem connection_attempt_some_length (g : Nat → Nat)
    (ofc ifc fmcc margin : Nat) (cm : List Bool) (pos : Nat) (m : List Bool) (p : Nat)
    (h : connection_attempt g ofc ifc fmcc margin cm pos = (some m, p)) :
    m.length = cm.length := by
  simp only [connection_attempt] at h
  obtain ⟨st, hx, rfl⟩ := attempt_finish_some _ _ _ h
  exact place_edges_matrix_length _ _ _ _ _ _ _ _ _ _ hx

theorem fill_connection_matrix_loop_some (g : Nat → Nat)
    (ofc ifc fmcc : Nat) (cm : List Bool) :
    ∀ (fuel margin pos : Nat) (m : List Bool) (mg : Nat),
      fill_connection_matrix_loop g ofc ifc fmcc cm fuel margin pos = some (m, mg) →
      margin ≤ mg ∧ ∃ pos' p', connection_attempt g ofc ifc fmcc mg cm pos' = (some m, p') := by
  intro fuel
  induction fuel with
  | zero => intro margin pos m mg h; simp [fill_connection_matrix_loop] at h
  | succ fuel ih =>
    intro margin pos m mg h
    rw [fill_connection_matrix_loop] at h
    rcases ha : connection_attempt g ofc ifc fmcc margin cm pos with ⟨r?, p'⟩
    rw [ha] at h
    cases r? with
    | some mm =>
      simp only [Option.some.injEq, Prod.mk.injEq] at h
      obtain ⟨h1, h2⟩ := h
      subst h1 h2
      exact ⟨le_refl _, pos, p', ha⟩
    | none =>
      simp only at h
      obtain ⟨hle, hrest⟩ := ih _ _ _ _ h
      exact ⟨by omega, hrest⟩

/-- Any matrix the generator returns has the full `output × input` size. -/
theorem fill_connection_matrix_some_parts (g : Nat → Nat)
    (ofc ifc fmcc : Nat) (cm : List Bool) (fuel : Nat) (m : List Bool)
    (h : fill_connection_matrix g ofc ifc fmcc cm fuel = some m) :
    m.length = cm.length ∧
      ∃ mg pos' p', connection_attempt g ofc ifc fmcc mg cm pos' = (some m, p') := by
  unfold fill_connection_matrix at h
  rcases hl : fill_connection_matrix_loop g ofc ifc fmcc cm fuel 0 0 with _ | ⟨mm, mg⟩
  · rw [hl] at h; simp at h
  · rw [hl] at h
    simp only [Option.map_some', Option.some.injEq] at h
    subst h
    obtain ⟨-, pos', p', ha⟩ := fill_connection_matrix_loop_some g ofc ifc fmcc cm _ _ _ _ _ hl
    exact ⟨connection_attempt_some_length _ _ _ _ _ _ _ _ _ ha, mg, pos', p', ha⟩

/-- The slice of the concatenated rows between two consecutive offsets is
exactly the corresponding row. -/
theorem flatMap_slice (f : Nat → List Nat) (n o : Nat) (ho : o < n) :
    (((List.range n).flatMap f).drop ((List.range o).flatMap f).length).take
        (((List.range (o + 1)).flatMap f).length - ((List.range o).flatMap f).length) =
      f o := by
  have hdelta : ((List.range (o + 1)).flatMap f).length -
      ((List.range o).flatMap f).length = (f o).length := by
    rw [List.range_succ, List.flatMap_append]
    simp
  rw [hdelta]
  have hsplit : List.range n =
      List.range o ++ (List.range (n - o)).map (fun x => o + x) := by
    rw [← List.range_add]
    congr 1
    omega
  rw [hsplit, List.flatMap_append, List.drop_left]
  rw [List.flatMap_map]
  rw [show n - o = (n - o - 1) + 1 from by omega, List.range_succ_eq_map]
  rw [List.flatMap_cons]
  simp only [Nat.add_zero]
  rw [List.flatMap_map]
  exact List.take_left _ _

/-- C9 (confirmed): after `randomize_custom_data` the compressed-row
representation is consistent with the generated connection matrix: the
offset table has `output_feature_map_count + 1` entries, starts at 0, is
non-decreasing, and ends at the total number of `true` cells; and between
two consecutive offsets the column list holds exactly that output's
connected input indices, strictly increasing and all below
`input_feature_map_count`. -/
theorem randomize_custom_data_csr (l : sparse_convolution_layer) (g : Nat → Nat)
    (fuel : Nat) (dc : List Nat × List Nat)
    (h : l.randomize_custom_data g fuel = some dc) :
    ∃ cm, fill_connection_matrix g l.output_feature_map_count l.input_feature_map_count
        l.feature_map_connection_count
        (List.replicate (l.output_feature_map_count * l.input_feature_map_count) false)
        fuel = some cm ∧
      dc = fill_data_custom cm l.output_feature_map_count l.input_feature_map_count ∧
      dc.2.length = l.output_feature_map_count + 1 ∧
      dc.2.getD 0 0 = 0 ∧
      List.Pairwise (· ≤ ·) dc.2 ∧
      dc.2.getD l.output_feature_map_count 0 = count_true cm ∧
      (∀ o, o < l.output_feature_map_count →
        (dc.1.drop (dc.2.getD o 0)).take (dc.2.getD (o + 1) 0 - dc.2.getD o 0) =
          row_connected_input_list cm l.input_feature_map_count o ∧
        List.Pairwise (· < ·)
          ((dc.1.drop (dc.2.getD o 0)).take (dc.2.getD (o + 1) 0 - dc.2.getD o 0)) ∧
        ∀ x ∈ (dc.1.drop (dc.2.getD o 0)).take (dc.2.getD (o + 1) 0 - dc.2.getD o 0),
          x < l.input_feature_map_count) := by
  unfold sparse_convolution_layer.randomize_custom_data at h
  rcases hm : fill_connection_matrix g l.output_feature_map_count
      l.input_feature_map_count l.feature_map_connection_count
      (List.replicate (l.output_feature_map_count * l.input_feature_map_count) false)
      fuel with _ | cm
  · rw [hm] at h; simp at h
  · rw [hm] at h
    simp only [Option.map_some', Option.some.injEq] at h
    subst h
    obtain ⟨hlen, -⟩ := fill_connection_matrix_some_parts _ _ _ _ _ _ _ hm
    rw [List.length_replicate] at hlen
    set ofc := l.output_feature_map_count
    set ifc := l.input_feature_map_count
    have hoffs := fill_data_custom_offsets cm ofc ifc
    have hcols := fill_data_custom_cols cm ofc ifc
    have hgetD : ∀ o, o ≤ ofc →
        (fill_data_custom cm ofc ifc).2.getD o 0 =
          ((List.range o).flatMap (row_connected_input_list cm ifc)).length := by
      intro o ho
      rw [hoffs]
      exact getD_map_range (ofc + 1) o _ 0 (by omega)
    refine ⟨cm, rfl, rfl, ?_, ?_, ?_, ?_, ?_⟩
    · rw [hoffs]; simp
    · rw [hgetD 0 (by omega)]; simp
    · rw [hoffs]
      rw [List.pairwise_map]
      exact List.Pairwise.imp
        (fun {a b} hab => flatMap_prefix_mono _ a b (Nat.le_of_lt hab))
        (List.pairwise_lt_range (ofc + 1))
    · rw [hgetD ofc (le_refl _)]
      exact flatMap_rows_length_eq_count cm ofc ifc hlen
    · intro o ho
      have hslice : ((fill_data_custom cm ofc ifc).1.drop
            ((fill_data_custom cm ofc ifc).2.getD o 0)).take
          ((fill_data_custom cm ofc ifc).2.getD (o + 1) 0 -
            (fill_data_custom cm ofc ifc).2.getD o 0) =
          row_connected_input_list cm ifc o := by
        rw [hcols, hgetD o (by omega), hgetD (o + 1) (by omega)]
        exact flatMap_slice _ ofc o ho
      refine ⟨hslice, ?_, ?_⟩
      · rw [hslice]
        exact List.Pairwise.sublist (List.filter_sublist _) (List.pairwise_lt_range ifc)
      · intro x hx
        rw [hslice] at hx
        unfold row_connected_input_list at hx
        have := List.mem_filter.mp hx
        exact List.mem_range.mp this.1

/-- Witness for C9 on a 1x1 layer with one connection. -/
theorem randomize_custom_data_csr_witness :
    ∃ cm, fill_connection_matrix (fun _ => 0) (1 : Nat) 1 1
        (List.replicate (1 * 1) false) 1 = some cm ∧
      (([0], [0, 1]) : List Nat × List Nat) = fill_data_custom cm 1 1 ∧
      ([0, 1] : List Nat).length = 1 + 1 ∧
      ([0, 1] : List Nat).getD 0 0 = 0 ∧
      List.Pairwise (· ≤ ·) ([0, 1] : List Nat) ∧
      ([0, 1] : List Nat).getD 1 0 = count_true cm ∧
      (∀ o, o < 1 →
        (([0] : List Nat).drop (([0, 1] : List Nat).getD o 0)).take
            (([0, 1] : List Nat).getD (o + 1) 0 - ([0, 1] : List Nat).getD o 0) =
          row_connected_input_list cm 1 o ∧
        List.Pairwise (· < ·)
          ((([0] : List Nat).drop (([0, 1] : List Nat).getD o 0)).take
            (([0, 1] : List Nat).getD (o + 1) 0 - ([0, 1] : List Nat).getD o 0)) ∧
        ∀ x ∈ (([0] : List Nat).drop (([0, 1] : List Nat).getD o 0)).take
            (([0, 1] : List Nat).getD (o + 1) 0 - ([0, 1] : List Nat).getD o 0),
          x < 1) :=
  randomize_custom_data_csr ⟨[1], 1, 1, -1, 1, [0], [0], [1], true⟩ (fun _ => 0) 1
    ([0], [0, 1]) (by decide)

/-! ## C1: the connectivity generator -/

theorem getD_set_self {α : Type} (l : List α) (k : Nat) (v d : α) (hk : k < l.length) :
    (l.set k v).getD k d = v := by
  rw [List.getD_eq_getElem?_getD, List.getElem?_set_self hk]
  rfl

theorem getD_set_ne {α : Type} (l : List α) (k j : Nat) (v d : α) (hkj : k ≠ j) :
    (l.set k v).getD j d = l.getD j d := by
  rw [List.getD_eq_getElem?_getD, List.getElem?_set_ne hkj, ← List.getD_eq_getElem?_getD]

theorem matrix_index_lt (ifc ofc o i : Nat) (ho : o < ofc) (hi : i < ifc) :
    matrix_index ifc o i < ofc * ifc := by
  unfold matrix_index
  calc o * ifc + i < o * ifc + ifc := by omega
  _ = (o + 1) * ifc := by ring
  _ ≤ ofc * ifc := Nat.mul_le_mul_right ifc (by omega)

theorem matrix_index_inj (ifc o i o' j : Nat) (hi : i < ifc) (hj : j < ifc)
    (h : matrix_index ifc o i = matrix_index ifc o' j) : o = o' ∧ i = j := by
  unfold matrix_index at h
  have hpos : 0 < ifc := by omega
  have h1 : (o * ifc + i) / ifc = o := by
    rw [Nat.mul_comm o ifc, Nat.mul_add_div hpos, Nat.div_eq_of_lt hi]
    omega
  have h2 : (o' * ifc + j) / ifc = o' := by
    rw [Nat.mul_comm o' ifc, Nat.mul_add_div hpos, Nat.div_eq_of_lt hj]
    omega
  have ho : o = o' := by rw [← h1, ← h2, h]
  subst ho
  exact ⟨rfl, by omega⟩

/-- A filter over `range n` whose predicate is flipped from `false` to
`true` at one in-range point gains exactly one element. -/
theorem length_filter_flip (n i : Nat) (p q : Nat → Bool) (hi : i < n)
    (hpq : ∀ j, j ≠ i → q j = p j) (hpi : p i = false) (hqi : q i = true) :
    ((List.range n).filter q).length = ((List.range n).filter p).length + 1 := by
  have hsplit : List.range n =
      List.range i ++ (List.range (n - i)).map (fun x => i + x) := by
    rw [← List.range_add]
    congr 1
    omega
  have htail : List.range (n - i) = 0 :: (List.range (n - i - 1)).map Nat.succ := by
    rw [show n - i = (n - i - 1) + 1 from by omega, List.range_succ_eq_map]
    simp
  rw [hsplit, List.filter_append, List.filter_append, List.length_append,
    List.length_append, htail]
  have hpre : List.filter q (List.range i) = List.filter p (List.range i) := by
    apply List.filter_congr
    intro x hx
    exact hpq x (by have := List.mem_range.mp hx; omega)
  have hcons : (0 :: (List.range (n - i - 1)).map Nat.succ).map (fun x => i + x) =
      i :: ((List.range (n - i - 1)).map Nat.succ).map (fun x => i + x) := by
    simp
  have htail2 : List.filter q
        (((List.range (n - i - 1)).map Nat.succ).map (fun x => i + x)) =
      List.filter p (((List.range (n - i - 1)).map Nat.succ).map (fun x => i + x)) := by
    apply List.filter_congr
    intro x hx
    obtain ⟨y, hy, rfl⟩ := List.mem_map.mp hx
    obtain ⟨z, hz, rfl⟩ := List.mem_map.mp hy
    exact hpq _ (by omega)
  rw [hpre, hcons, List.filter_cons, List.filter_cons, htail2]
  simp [hqi, hpi]
  omega

theorem row_connection_count_set_ne (cm : List Bool) (ifc o i o' : Nat)
    (hi : i < ifc) (hne : o' ≠ o) :
    row_connection_count (cm.set (matrix_index ifc o i) true) ifc o' =
      row_connection_count cm ifc o' := by
  unfold row_connection_count
  apply congrArg List.length
  apply List.filter_congr
  intro j hj
  have hjr := List.mem_range.mp hj
  rw [getD_set_ne]
  intro hcontra
  exact hne ((matrix_index_inj ifc o i o' j hi hjr hcontra).1).symm

theorem row_connection_count_set_self (cm : List Bool) (ifc o i : Nat)
    (hi : i < ifc) (hidx : matrix_index ifc o i < cm.length)
    (hc : cm.getD (matrix_index ifc o i) false = false) :
    row_connection_count (cm.set (matrix_index ifc o i) true) ifc o =
      row_connection_count cm ifc o + 1 := by
  unfold row_connection_count
  apply length_filter_flip ifc i _ _ hi
  · intro j hji
    apply getD_set_ne
    intro hcontra
    exact hji ((matrix_index_inj ifc o i o j hi (by
      by_contra hjge
      push_neg at hjge
      have : matrix_index ifc o i < matrix_index ifc o j := by
        unfold matrix_index
        omega
      omega) hcontra).2).symm
  · exact hc
  · exact getD_set_self cm (matrix_index ifc o i) true false hidx

theorem col_connection_count_set_ne (cm : List Bool) (ifc ofc o i i' : Nat)
    (hi : i < ifc) (hi' : i' < ifc) (hne : i' ≠ i) :
    col_connection_count (cm.set (matrix_index ifc o i) true) ifc ofc i' =
      col_connection_count cm ifc ofc i' := by
  unfold col_connection_count
  apply congrArg List.length
  apply List.filter_congr
  intro o' ho'
  rw [getD_set_ne]
  intro hcontra
  exact hne ((matrix_index_inj ifc o i o' i' hi hi' hcontra).2).symm

theorem col_connection_count_set_self (cm : List Bool) (ifc ofc o i : Nat)
    (hi : i < ifc) (ho : o < ofc) (hidx : matrix_index ifc o i < cm.length)
    (hc : cm.getD (matrix_index ifc o i) false = false) :
    col_connection_count (cm.set (matrix_index ifc o i) true) ifc ofc i =
      col_connection_count cm ifc ofc i + 1 := by
  unfold col_connection_count
  apply length_filter_flip ofc o _ _ ho
  · intro o' ho'
    apply getD_set_ne
    intro hcontra
    exact ho' ((matrix_index_inj ifc o i o' i hi hi hcontra).1).symm
  · exact hc
  · exact getD_set_self cm (matrix_index ifc o i) true false hidx

theorem count_true_set (cm : List Bool) (k : Nat) (hk : k < cm.length)
    (hc : cm.getD k false = false) :
    count_true (cm.set k true) = count_true cm + 1 := by
  rw [count_true_eq_positions, count_true_eq_positions, List.length_set]
  apply length_filter_flip cm.length k _ _ hk
  · intro j hj
    exact congrArg (fun l => l.getD j false) (rfl : cm.set k true = cm.set k true) |>.trans
      (getD_set_ne cm k j true false (fun h => hj h.symm))
  · exact hc
  · exact getD_set_self cm k true false hk

theorem replicate_false_getD (n k : Nat) :
    (List.replicate n false).getD k false = false := by
  by_cases hk : k < n
  · rw [List.getD_eq_getElem _ _ (by simpa using hk)]
    exact List.getElem_replicate false _
  · rw [List.getD_eq_getElem?_getD, List.getElem?_eq_none (by simpa using hk)]
    rfl

theorem row_connection_count_replicate_false (ifc o n : Nat) :
    row_connection_count (List.replicate n false) ifc o = 0 := by
  unfold row_connection_count
  rw [List.filter_eq_nil_iff.mpr]
  · rfl
  · intro j hj
    simp [replicate_false_getD]

theorem col_connection_count_replicate_false (ifc ofc i n : Nat) :
    col_connection_count (List.replicate n false) ifc ofc i = 0 := by
  unfold col_connection_count
  rw [List.filter_eq_nil_iff.mpr]
  · rfl
  · intro j hj
    simp [replicate_false_getD]

theorem count_true_replicate_false (n : Nat) :
    count_true (List.replicate n false) = 0 := by
  unfold count_true
  rw [List.filter_eq_nil_iff.mpr]
  · rfl
  · intro b hb
    have := List.eq_of_mem_replicate hb
    simp [this]

/-- A success of the strict-cursor tier returns an input from the given
list that is unconnected to the fixed output. -/
theorem strict_cursor_attempts_sound (g : Nat → Nat) (ifc : Nat)
    (lcm : List Bool) (o : Nat) (lst : List Nat) (hlst : lst ≠ []) :
    ∀ k p i p', strict_cursor_attempts g ifc lcm o lst k p = (some i, p') →
      i ∈ lst ∧ lcm.getD (matrix_index ifc o i) false = false := by
  intro k
  induction k with
  | zero =>
    intro p i p' h
    simp [strict_cursor_attempts] at h
  | succ k ih =>
    intro p i p' h
    simp only [strict_cursor_attempts] at h
    split at h
    · exact ih _ _ _ h
    · rename_i hc
      have hji : lst.getD (draw g p lst.length) 0 = i := by
        have := congrArg Prod.fst h
        simpa using this
      constructor
      · rw [← hji]
        exact getD_mod_mem hlst (g p)
      · rw [← hji]
        simpa using hc

/-- A success of the random-pair tier returns endpoints from the given
lists whose cell is unconnected. -/
theorem random_pair_attempts_sound (g : Nat → Nat) (ifc : Nat)
    (lcm : List Bool) (ol il : List Nat) (hol : ol ≠ []) (hil : il ≠ []) :
    ∀ k p o i p', random_pair_attempts g ifc lcm ol il k p = (some (o, i), p') →
      o ∈ ol ∧ i ∈ il ∧ lcm.getD (matrix_index ifc o i) false = false := by
  intro k
  induction k with
  | zero =>
    intro p o i p' h
    simp [random_pair_attempts] at h
  | succ k ih =>
    intro p o i p' h
    simp only [random_pair_attempts] at h
    split at h
    · exact ih _ _ _ _ h
    · rename_i hc
      have hpair : (ol.getD (draw g p ol.length) 0,
          il.getD (draw g (p + 1) il.length) 0) = (o, i) := by
        have := congrArg Prod.fst h
        simpa using this
      have ho : ol.getD (draw g p ol.length) 0 = o := congrArg Prod.fst hpair
      have hi : il.getD (draw g (p + 1) il.length) 0 = i := congrArg Prod.snd hpair
      refine ⟨?_, ?_, ?_⟩
      · rw [← ho]
        exact getD_mod_mem hol (g p)
      · rw [← hi]
        exact getD_mod_mem hil (g (p + 1))
      · rw [← ho, ← hi]
        simpa using hc

/-- A success of the overflow tier returns endpoints from the overflow
lists whose cell is unconnected. -/
theorem overflow_tier_sound (g : Nat → Nat) (ifc : Nat) (st : gen_state)
    (e : Bool) (p : Nat) (o i : Nat) (e' : Bool) (p' : Nat)
    (h : overflow_tier g ifc st e p = (some (o, i), e', p')) :
    o ∈ st.output_feature_map_id_available_overflow_list ∧
      i ∈ st.input_feature_map_id_available_overflow_list ∧
      st.local_connection_matrix.getD (matrix_index ifc o i) false = false := by
  simp only [overflow_tier] at h
  split at h
  · simp at h
  · rename_i hne
    push_neg at hne
    obtain ⟨hoe, hie⟩ := hne
    have hol : st.output_feature_map_id_available_overflow_list ≠ [] :=
      fun hnil => hoe (by rw [hnil]; rfl)
    have hil : st.input_feature_map_id_available_overflow_list ≠ [] :=
      fun hnil => hie (by rw [hnil]; rfl)
    rcases hr : random_pair_attempts g ifc st.local_connection_matrix
        st.output_feature_map_id_available_overflow_list
        st.input_feature_map_id_available_overflow_list 100 p with ⟨ro, rp⟩
    rw [hr] at h
    simp only [Prod.mk.injEq] at h
    obtain ⟨h1, _, h3⟩ := h
    exact random_pair_attempts_sound g ifc st.local_connection_matrix _ _ hol hil
      100 p o i rp (by rw [hr, h1])

/-- A success of the full tier ladder returns endpoints from the strict
lists or from the overflow lists, and in either case an unconnected
cell. -/
theorem find_connection_pair_sound (g : Nat → Nat) (ifc : Nat) (st : gen_state)
    (o i : Nat) (e' : Bool) (p' : Nat)
    (hcursor : st.output_feature_map_id_available_list ≠ [] →
      st.current_output_feature_map_index <
        st.output_feature_map_id_available_list.length)
    (h : find_connection_pair g ifc st = (some (o, i), e', p')) :
    ((o ∈ st.output_feature_map_id_available_list ∧
        i ∈ st.input_feature_map_id_available_list) ∨
      (o ∈ st.output_feature_map_id_available_overflow_list ∧
        i ∈ st.input_feature_map_id_available_overflow_list)) ∧
      st.local_connection_matrix.getD (matrix_index ifc o i) false = false := by
  simp only [find_connection_pair] at h
  split at h
  · split at h
    · have := overflow_tier_sound g ifc st false st.pos o i e' p' h
      exact ⟨Or.inr ⟨this.1, this.2.1⟩, this.2.2⟩
    · rename_i hne
      push_neg at hne
      obtain ⟨hoe, hie⟩ := hne
      have holst : st.output_feature_map_id_available_list ≠ [] :=
        fun hnil => hoe (by rw [hnil]; rfl)
      have hilst : st.input_feature_map_id_available_list ≠ [] :=
        fun hnil => hie (by rw [hnil]; rfl)
      rcases h1 : strict_cursor_attempts g ifc st.local_connection_matrix
          (st.output_feature_map_id_available_list.getD
            st.current_output_feature_map_index 0)
          st.input_feature_map_id_available_list 20 st.pos with ⟨oi, p1⟩
      rw [h1] at h
      cases oi with
      | some j =>
        simp only [Prod.mk.injEq, Option.some.injEq] at h
        obtain ⟨⟨hoeq, hieq⟩, _, _⟩ := h
        have hs := strict_cursor_attempts_sound g ifc st.local_connection_matrix
          _ _ hilst 20 st.pos j p1 h1
        refine ⟨Or.inl ⟨?_, ?_⟩, ?_⟩
        · rw [← hoeq]
          exact getD_mem_of_lt (hcursor holst)
        · rw [← hieq]
          exact hs.1
        · rw [← hoeq, ← hieq]
          exact hs.2
      | none =>
        dsimp only at h
        rcases h2 : random_pair_attempts g ifc st.local_connection_matrix
            st.output_feature_map_id_available_list
            st.input_feature_map_id_available_list 100 p1 with ⟨oi2, p2⟩
        rw [h2] at h
        cases oi2 with
        | some pr =>
          simp only [Prod.mk.injEq, Option.some.injEq] at h
          obtain ⟨hpr, _, _⟩ := h
          rw [hpr] at h2
          have hs := random_pair_attempts_sound g ifc st.local_connection_matrix
            _ _ holst hilst 100 p1 o i p2 h2
          exact ⟨Or.inl ⟨hs.1, hs.2.1⟩, hs.2.2⟩
        | none =>
          have := overflow_tier_sound g ifc st false p2 o i e' p' h
          exact ⟨Or.inr ⟨this.1, this.2.1⟩, this.2.2⟩
  · have := overflow_tier_sound g ifc st false st.pos o i e' p' h
    exact ⟨Or.inr ⟨this.1, this.2.1⟩, this.2.2⟩

theorem cursor_wrap_lt (l : List Nat) (c : Nat) (hl : l ≠ []) :
    (if l.isEmpty then c else c % l.length) < l.length := by
  have hlen : 0 < l.length := List.length_pos.mpr hl
  have hempty : l.isEmpty = false := by
    cases l with
    | nil => exact absurd rfl hl
    | cons x xs => rfl
  rw [if_neg (by rw [hempty]; exact Bool.false_ne_true)]
  exact Nat.mod_lt _ hlen

/-- `register_connection` preserves the attempt-state invariant, provided
the registered cell is unconnected, both endpoints are in range, both
degrees are strictly below their overflow caps, and each strict cap is
strictly below its overflow cap. -/
theorem register_connection_invariant
    (ofc ifc mo moov mi miov : Nat) (st : gen_state) (o i : Nat) (e : Bool) (p : Nat)
    (inv : gen_invariant ofc ifc mo moov mi miov st)
    (hmo : mo < moov) (hmi : mi < miov)
    (ho : o < ofc) (hi : i < ifc)
    (hrow : row_connection_count st.local_connection_matrix ifc o < moov)
    (hcol : col_connection_count st.local_connection_matrix ifc ofc i < miov)
    (hcell : st.local_connection_matrix.getD (matrix_index ifc o i) false = false) :
    gen_invariant ofc ifc mo moov mi miov
      (register_connection ifc mo moov mi miov st o i e p) := by
  have hlen := inv.matrix_length
  have hidx : matrix_index ifc o i < st.local_connection_matrix.length := by
    rw [hlen]
    exact matrix_index_lt ifc ofc o i ho hi
  have hRo := row_connection_count_set_self st.local_connection_matrix ifc o i hi hidx hcell
  have hRne : ∀ o', o' ≠ o →
      row_connection_count (st.local_connection_matrix.set (matrix_index ifc o i) true)
        ifc o' = row_connection_count st.local_connection_matrix ifc o' :=
    fun o' h => row_connection_count_set_ne st.local_connection_matrix ifc o i o' hi h
  have hCi := col_connection_count_set_self st.local_connection_matrix ifc ofc o i
    hi ho hidx hcell
  have hCne : ∀ i', i' < ifc → i' ≠ i →
      col_connection_count (st.local_connection_matrix.set (matrix_index ifc o i) true)
        ifc ofc i' = col_connection_count st.local_connection_matrix ifc ofc i' :=
    fun i' hlt h => col_connection_count_set_ne st.local_connection_matrix ifc ofc o i i'
      hi hlt h
  have hOC := inv.out_counts o ho
  have hIC := inv.in_counts i hi
  have hko : o < st.output_feature_map_connection_count_list.length := by
    rw [inv.out_counts_length]
    exact ho
  have hki : i < st.input_feature_map_connection_count_list.length := by
    rw [inv.in_counts_length]
    exact hi
  simp only [register_connection]
  refine ⟨?_, ?_, ?_, ?_, ?_, ?_, ?_, ?_, ?_, ?_, ?_, ?_, ?_, ?_, ?_, ?_⟩
  · dsimp only
    rw [List.length_set]
    exact hlen
  · intro o' ho'
    dsimp only
    by_cases h' : o' = o
    · subst h'
      rw [getD_set_self st.output_feature_map_connection_count_list o' _ 0 hko, hOC, hRo]
    · rw [getD_set_ne st.output_feature_map_connection_count_list o o' _ 0
        (fun hcontra => h' hcontra.symm), inv.out_counts o' ho', hRne o' h']
  · intro i' hi'
    dsimp only
    by_cases h' : i' = i
    · subst h'
      rw [getD_set_self st.input_feature_map_connection_count_list i' _ 0 hki, hIC, hCi]
    · rw [getD_set_ne st.input_feature_map_connection_count_list i i' _ 0
        (fun hcontra => h' hcontra.symm), inv.in_counts i' hi', hCne i' hi' h']
  · dsimp only
    rw [List.length_set]
    exact inv.out_counts_length
  · dsimp only
    rw [List.length_set]
    exact inv.in_counts_length
  · intro o' hmem
    dsimp only at hmem ⊢
    by_cases hc1 : st.output_feature_map_connection_count_list.getD o 0 + 1 = mo
    · rw [if_pos hc1] at hmem
      obtain ⟨hne', hmem'⟩ := (inv.out_avail_nodup.mem_erase_iff).mp hmem
      obtain ⟨h1, h2⟩ := inv.out_avail o' hmem'
      exact ⟨h1, by rw [hRne o' hne']; exact h2⟩
    · rw [if_neg hc1] at hmem
      obtain ⟨h1, h2⟩ := inv.out_avail o' hmem
      refine ⟨h1, ?_⟩
      by_cases h' : o' = o
      · subst h'
        rw [hRo]
        rw [hOC] at hc1
        omega
      · rw [hRne o' h']
        exact h2
  · intro o' hmem
    dsimp only at hmem ⊢
    by_cases hc1 : st.output_feature_map_connection_count_list.getD o 0 + 1 = mo
    · rw [if_pos hc1] at hmem
      obtain ⟨h1, h2⟩ := inv.out_avail_overflow o' hmem
      refine ⟨h1, ?_⟩
      by_cases h' : o' = o
      · subst h'
        rw [hRo]
        rw [hOC] at hc1
        omega
      · rw [hRne o' h']
        exact h2
    · rw [if_neg hc1] at hmem
      by_cases hc2 : st.output_feature_map_connection_count_list.getD o 0 + 1 = moov
      · rw [if_pos hc2] at hmem
        obtain ⟨hne', hmem'⟩ := (inv.out_avail_overflow_nodup.mem_erase_iff).mp hmem
        obtain ⟨h1, h2⟩ := inv.out_avail_overflow o' hmem'
        exact ⟨h1, by rw [hRne o' hne']; exact h2⟩
      · rw [if_neg hc2] at hmem
        obtain ⟨h1, h2⟩ := inv.out_avail_overflow o' hmem
        refine ⟨h1, ?_⟩
        by_cases h' : o' = o
        · subst h'
          rw [hRo]
          rw [hOC] at hc2
          omega
        · rw [hRne o' h']
          exact h2
  · intro i' hmem
    dsimp only at hmem ⊢
    by_cases hc1 : st.input_feature_map_connection_count_list.getD i 0 + 1 = mi
    · rw [if_pos hc1] at hmem
      obtain ⟨hne', hmem'⟩ := (inv.in_avail_nodup.mem_erase_iff).mp hmem
      obtain ⟨h1, h2⟩ := inv.in_avail i' hmem'
      exact ⟨h1, by rw [hCne i' h1 hne']; exact h2⟩
    · rw [if_neg hc1] at hmem
      have hmem' : i' ∈ st.input_feature_map_id_available_list := by
        by_cases hc2 : st.input_feature_map_connection_count_list.getD i 0 + 1 = miov
        · rw [if_pos hc2] at hmem
          exact hmem
        · rw [if_neg hc2] at hmem
          exact hmem
      obtain ⟨h1, h2⟩ := inv.in_avail i' hmem'
      refine ⟨h1, ?_⟩
      by_cases h' : i' = i
      · subst h'
        rw [hCi]
        rw [hIC] at hc1
        omega
      · rw [hCne i' h1 h']
        exact h2
  · intro i' hmem
    dsimp only at hmem ⊢
    by_cases hc1 : st.input_feature_map_connection_count_list.getD i 0 + 1 = mi
    · rw [if_pos hc1] at hmem
      obtain ⟨h1, h2⟩ := inv.in_avail_overflow i' hmem
      refine ⟨h1, ?_⟩
      by_cases h' : i' = i
      · subst h'
        rw [hCi]
        rw [hIC] at hc1
        omega
      · rw [hCne i' h1 h']
        exact h2
    · rw [if_neg hc1] at hmem
      by_cases hc2 : st.input_feature_map_connection_count_list.getD i 0 + 1 = miov
      · rw [if_pos hc2] at hmem
        obtain ⟨hne', hmem'⟩ := (inv.in_avail_overflow_nodup.mem_erase_iff).mp hmem
        obtain ⟨h1, h2⟩ := inv.in_avail_overflow i' hmem'
        exact ⟨h1, by rw [hCne i' h1 hne']; exact h2⟩
      · rw [if_neg hc2] at hmem
        obtain ⟨h1, h2⟩ := inv.in_avail_overflow i' hmem
        refine ⟨h1, ?_⟩
        by_cases h' : i' = i
        · subst h'
          rw [hCi]
          rw [hIC] at hc2
          omega
        · rw [hCne i' h1 h']
          exact h2
  · dsimp only
    by_cases hc1 : st.output_feature_map_connection_count_list.getD o 0 + 1 = mo
    · rw [if_pos hc1]
      exact inv.out_avail_nodup.sublist (List.erase_sublist _ _)
    · rw [if_neg hc1]
      exact inv.out_avail_nodup
  · dsimp only
    by_cases hc1 : st.output_feature_map_connection_count_list.getD o 0 + 1 = mo
    · rw [if_pos hc1]
      exact inv.out_avail_overflow_nodup
    · rw [if_neg hc1]
      by_cases hc2 : st.output_feature_map_connection_count_list.getD o 0 + 1 = moov
      · rw [if_pos hc2]
        exact inv.out_avail_overflow_nodup.sublist (List.erase_sublist _ _)
      · rw [if_neg hc2]
        exact inv.out_avail_overflow_nodup
  · dsimp only
    by_cases hc1 : st.input_feature_map_connection_count_list.getD i 0 + 1 = mi
    · rw [if_pos hc1]
      exact inv.in_avail_nodup.sublist (List.erase_sublist _ _)
    · rw [if_neg hc1]
      by_cases hc2 : st.input_feature_map_connection_count_list.getD i 0 + 1 = miov
      · rw [if_pos hc2]
        exact inv.in_avail_nodup
      · rw [if_neg hc2]
        exact inv.in_avail_nodup
  · dsimp only
    by_cases hc1 : st.input_feature_map_connection_count_list.getD i 0 + 1 = mi
    · rw [if_pos hc1]
      exact inv.in_avail_overflow_nodup
    · rw [if_neg hc1]
      by_cases hc2 : st.input_feature_map_connection_count_list.getD i 0 + 1 = miov
      · rw [if_pos hc2]
        exact inv.in_avail_overflow_nodup.sublist (List.erase_sublist _ _)
      · rw [if_neg hc2]
        exact inv.in_avail_overflow_nodup
  · dsimp only
    by_cases hc1 : st.output_feature_map_connection_count_list.getD o 0 + 1 = mo
    · rw [if_pos hc1]
      intro hne'
      exact cursor_wrap_lt _ _ hne'
    · rw [if_neg hc1]
      intro hne'
      exact cursor_wrap_lt _ _ hne'
  · intro o' ho'
    dsimp only
    by_cases h' : o' = o
    · subst h'
      rw [hRo]
      omega
    · rw [hRne o' h']
      exact inv.out_degrees o' ho'
  · intro i' hi'
    dsimp only
    by_cases h' : i' = i
    · subst h'
      rw [hCi]
      omega
    · rw [hCne i' hi' h']
      exact inv.in_degrees i' hi'

/-- The edge-placement loop preserves the invariant and places exactly
one new connection per remaining edge. -/
theorem place_edges_invariant (g : Nat → Nat) (ofc ifc mo moov mi miov : Nat)
    (hmo : mo < moov) (hmi : mi < miov) :
    ∀ (r : Nat) (st st' : gen_state) (p' : Nat),
      gen_invariant ofc ifc mo moov mi miov st →
      place_edges g ifc mo moov mi miov r st = (some st', p') →
      gen_invariant ofc ifc mo moov mi miov st' ∧
        count_true st'.local_connection_matrix =
          count_true st.local_connection_matrix + r := by
  intro r
  induction r with
  | zero =>
    intro st st' p' inv h
    simp only [place_edges, Prod.mk.injEq] at h
    have hst : st = st' := Option.some.inj h.1
    subst hst
    exact ⟨inv, by omega⟩
  | succ r ih =>
    intro st st' p' inv h
    rw [place_edges] at h
    rcases hf : find_connection_pair g ifc st with ⟨res, e1, p1⟩
    rw [hf] at h
    cases res with
    | none => simp at h
    | some pr =>
      rcases pr with ⟨o, i⟩
      simp only at h
      obtain ⟨hmem, hcell⟩ := find_connection_pair_sound g ifc st o i e1 p1 inv.cursor hf
      have hoRow : o < ofc ∧
          row_connection_count st.local_connection_matrix ifc o < moov := by
        rcases hmem with ⟨hm, _⟩ | ⟨hm, _⟩
        · have := inv.out_avail o hm
          exact ⟨this.1, lt_trans this.2 hmo⟩
        · exact inv.out_avail_overflow o hm
      have hiCol : i < ifc ∧
          col_connection_count st.local_connection_matrix ifc ofc i < miov := by
        rcases hmem with ⟨_, hm⟩ | ⟨_, hm⟩
        · have := inv.in_avail i hm
          exact ⟨this.1, lt_trans this.2 hmi⟩
        · exact inv.in_avail_overflow i hm
      have inv' := register_connection_invariant ofc ifc mo moov mi miov st o i e1 p1
        inv hmo hmi hoRow.1 hiCol.1 hoRow.2 hiCol.2 hcell
      obtain ⟨hinv', hcount⟩ := ih _ st' p' inv' h
      refine ⟨hinv', ?_⟩
      rw [hcount]
      have hidx : matrix_index ifc o i < st.local_connection_matrix.length := by
        rw [inv.matrix_length]
        exact matrix_index_lt ifc ofc o i hoRow.1 hiCol.1
      have hreg : (register_connection ifc mo moov mi miov st o i e1
          p1).local_connection_matrix =
          st.local_connection_matrix.set (matrix_index ifc o i) true := rfl
      rw [hreg, count_true_set st.local_connection_matrix _ hidx hcell]
      omega

/-- The state `connection_attempt` starts from satisfies the invariant,
for a starting matrix of the right size whose degrees are within the
overflow caps. -/
theorem connection_attempt_initial_invariant
    (ofc ifc mo moov mi miov : Nat) (cm : List Bool) (p : Nat)
    (hlen : cm.length = ofc * ifc)
    (hdeg_out : ∀ o, o < ofc → row_connection_count cm ifc o ≤ moov)
    (hdeg_in : ∀ i, i < ifc → col_connection_count cm ifc ofc i ≤ miov) :
    gen_invariant ofc ifc mo moov mi miov
      { local_connection_matrix := cm
        output_feature_map_connection_count_list :=
          (List.range ofc).map (row_connection_count cm ifc)
        input_feature_map_connection_count_list :=
          (List.range ifc).map (col_connection_count cm ifc ofc)
        output_feature_map_id_available_list :=
          (List.range ofc).filter (fun o =>
            ((List.range ofc).map (row_connection_count cm ifc)).getD o 0 < mo)
        output_feature_map_id_available_overflow_list :=
          (List.range ofc).filter (fun o =>
            ((List.range ofc).map (row_connection_count cm ifc)).getD o 0 < moov)
        input_feature_map_id_available_list :=
          (List.range ifc).filter (fun i =>
            ((List.range ifc).map (col_connection_count cm ifc ofc)).getD i 0 < mi)
        input_feature_map_id_available_overflow_list :=
          (List.range ifc).filter (fun i =>
            ((List.range ifc).map (col_connection_count cm ifc ofc)).getD i 0 < miov)
        explore_strict := true
        current_output_feature_map_index := 0
        pos := p } := by
  refine ⟨?_, ?_, ?_, ?_, ?_, ?_, ?_, ?_, ?_, ?_, ?_, ?_, ?_, ?_, ?_, ?_⟩
  · exact hlen
  · intro o ho
    exact getD_map_range ofc o _ 0 ho
  · intro i hi
    exact getD_map_range ifc i _ 0 hi
  · simp
  · simp
  · intro o hmem
    rw [List.mem_filter] at hmem
    obtain ⟨hr, hcond⟩ := hmem
    have ho := List.mem_range.mp hr
    have := of_decide_eq_true hcond
    rw [getD_map_range ofc o _ 0 ho] at this
    exact ⟨ho, this⟩
  · intro o hmem
    rw [List.mem_filter] at hmem
    obtain ⟨hr, hcond⟩ := hmem
    have ho := List.mem_range.mp hr
    have := of_decide_eq_true hcond
    rw [getD_map_range ofc o _ 0 ho] at this
    exact ⟨ho, this⟩
  · intro i hmem
    rw [List.mem_filter] at hmem
    obtain ⟨hr, hcond⟩ := hmem
    have hi := List.mem_range.mp hr
    have := of_decide_eq_true hcond
    rw [getD_map_range ifc i _ 0 hi] at this
    exact ⟨hi, this⟩
  · intro i hmem
    rw [List.mem_filter] at hmem
    obtain ⟨hr, hcond⟩ := hmem
    have hi := List.mem_range.mp hr
    have := of_decide_eq_true hcond
    rw [getD_map_range ifc i _ 0 hi] at this
    exact ⟨hi, this⟩
  · exact (List.nodup_range ofc).filter _
  · exact (List.nodup_range ofc).filter _
  · exact (List.nodup_range ifc).filter _
  · exact (List.nodup_range ifc).filter _
  · intro hne
    exact List.length_pos.mpr hne
  · exact hdeg_out
  · exact hdeg_in

/-- The strict cap is strictly below its overflow relaxation. -/
theorem lt_max_connections_overflow (cap : Nat) : cap < max_connections_overflow cap :=
  lt_of_lt_of_le (Nat.lt_succ_self cap) (le_max_left _ _)

theorem strict_stuck :
    ∀ k p, 4 ≤ p →
      strict_cursor_attempts adversary_stream 3
        [true, false, false, true, false, false] 0 [0, 1, 2] k p = (none, p + k) := by
  intro k
  induction k with
  | zero =>
    intro p hp
    rfl
  | succ k ih =>
    intro p hp
    have hp3 : p ≠ 3 := by omega
    have hdraw : draw adversary_stream p 3 = 0 := by
      simp [draw, adversary_stream, hp3]
    simp [strict_cursor_attempts, hdraw, matrix_index]
    rw [show p + (k + 1) = (p + 1) + k from by omega]
    exact ih (p + 1) (by omega)

theorem random_stuck :
    ∀ k p, 4 ≤ p →
      random_pair_attempts adversary_stream 3
        [true, false, false, true, false, false] [0, 1] [0, 1, 2] k p =
        (none, p + 2 * k) := by
  intro k
  induction k with
  | zero =>
    intro p hp
    simp [random_pair_attempts]
  | succ k ih =>
    intro p hp
    have hp3 : p ≠ 3 := by omega
    have hp3' : p + 1 ≠ 3 := by omega
    have hd1 : draw adversary_stream p 2 = 0 := by
      simp [draw, adversary_stream, hp3]
    have hd2 : draw adversary_stream (p + 1) 3 = 0 := by
      simp [draw, adversary_stream, hp3']
    simp [random_pair_attempts, hd1, hd2, matrix_index]
    rw [show p + 2 * (k + 1) = (p + 2) + 2 * k from by omega]
    exact ih (p + 2) (by omega)

theorem find_pair_stuck (q : Nat) (hq : 4 ≤ q) :
    find_connection_pair adversary_stream 3 (adversary_state2 q) =
      (none, false, q + 420) := by
  have h1 := strict_stuck 20 q hq
  have h2 := random_stuck 100 (q + 20) (by omega)
  have h3 := random_stuck 100 (q + 20 + 2 * 100) (by omega)
  simp [find_connection_pair, overflow_tier, adversary_state2, h1, h2, h3]

theorem find_pair_first (p : Nat) (hp : 4 ≤ p) :
    find_connection_pair adversary_stream 3 (adversary_state0 p) =
      (some (0, 0), true, p + 1) := by
  have hp3 : p ≠ 3 := by omega
  have hstep : strict_cursor_attempts adversary_stream 3
      [false, false, false, false, false, false] 0 [0, 1, 2] 20 p = (some 0, p + 1) := by
    rw [show (20 : Nat) = 19 + 1 from rfl]
    simp [strict_cursor_attempts, draw, adversary_stream, hp3, matrix_index]
  simp [find_connection_pair, adversary_state0, hstep]

theorem find_pair_second (p : Nat) (hp : 5 ≤ p) :
    find_connection_pair adversary_stream 3 (adversary_state1 p) =
      (some (1, 0), true, p + 1) := by
  have hp3 : p ≠ 3 := by omega
  have hstep : strict_cursor_attempts adversary_stream 3
      [true, false, false, false, false, false] 1 [0, 1, 2] 20 p = (some 0, p + 1) := by
    rw [show (20 : Nat) = 19 + 1 from rfl]
    simp [strict_cursor_attempts, draw, adversary_stream, hp3, matrix_index]
  simp [find_connection_pair, adversary_state1, hstep]

theorem register_first (a aov b bov q q' : Nat)
    (ha : 2 ≤ a) (haov : 2 ≤ aov) (hb : 3 ≤ b) (hbov : 3 ≤ bov) :
    register_connection 3 a aov b bov (adversary_state0 q) 0 0 true q' =
      adversary_state1 q' := by
  have e1 : ¬((1 : Nat) = a) := by omega
  have e2 : ¬((1 : Nat) = aov) := by omega
  have e3 : ¬((1 : Nat) = b) := by omega
  have e4 : ¬((1 : Nat) = bov) := by omega
  simp [register_connection, adversary_state0, adversary_state1, matrix_index,
    e1, e2, e3, e4]

theorem register_second (a aov b bov q q' : Nat)
    (ha : 2 ≤ a) (haov : 2 ≤ aov) (hb : 3 ≤ b) (hbov : 3 ≤ bov) :
    register_connection 3 a aov b bov (adversary_state1 q) 1 0 true q' =
      adversary_state2 q' := by
  have e1 : ¬((1 : Nat) = a) := by omega
  have e2 : ¬((1 : Nat) = aov) := by omega
  have e3 : ¬((2 : Nat) = b) := by omega
  have e4 : ¬((2 : Nat) = bov) := by omega
  simp [register_connection, adversary_state1, adversary_state2, matrix_index,
    e1, e2, e3, e4]

/-- From the stuck state, any non-zero number of remaining edges aborts
the attempt after the full 20 + 200 + 200 draws of the tier ladder. -/
theorem adversary_place_stuck (a aov b bov r q : Nat) (hq : 4 ≤ q) :
    place_edges adversary_stream 3 a aov b bov (r + 1) (adversary_state2 q) =
      (none, q + 420) := by
  rw [place_edges, find_pair_stuck q hq]

/-- A full attempt at abstract caps `a, aov, b, bov` (with the bounds any
margin at least 1 guarantees) places two edges and then aborts. -/
theorem adversary_place_five (a aov b bov p : Nat)
    (ha : 2 ≤ a) (haov : 2 ≤ aov) (hb : 3 ≤ b) (hbov : 3 ≤ bov) (hp : 4 ≤ p) :
    place_edges adversary_stream 3 a aov b bov 5 (adversary_state0 p) =
      (none, p + 422) := by
  rw [show (5 : Nat) = 4 + 1 from rfl, place_edges, find_pair_first p hp]
  dsimp only
  rw [register_first a aov b bov p (p + 1) ha haov hb hbov]
  rw [show (4 : Nat) = 3 + 1 from rfl, place_edges,
    find_pair_second (p + 1) (by omega)]
  dsimp only
  rw [register_second a aov b bov (p + 1) (p + 1 + 1) ha haov hb hbov]
  rw [adversary_place_stuck a aov b bov 2 (p + 1 + 1) (by omega)]

/-- Every attempt of the `(2, 3, 5)` run on the adversarial stream at a
margin of at least 1, starting at stream position at least 4, fails and
advances the position by 422. -/
theorem adversary_attempt_fails (m p : Nat) (hm : 1 ≤ m) (hp : 4 ≤ p) :
    connection_attempt adversary_stream 2 3 5 m (List.replicate 6 false) p =
      (none, p + 422) := by
  have hca : max_connections_strict 5 2 m = 3 + m := by
    unfold max_connections_strict
    norm_num
  have hcb : max_connections_strict 5 3 m = 2 + m := by
    unfold max_connections_strict
    norm_num
  have ha : 2 ≤ 3 + m := by omega
  have hb : 3 ≤ 2 + m := by omega
  have haov : 2 ≤ max_connections_overflow (3 + m) := by
    have := lt_max_connections_overflow (3 + m)
    omega
  have hbov : 3 ≤ max_connections_overflow (2 + m) := by
    have := lt_max_connections_overflow (2 + m)
    omega
  have hrep : List.replicate 6 false = [false, false, false, false, false, false] := rfl
  have hc1 : (List.range 2).map
      (row_connection_count [false, false, false, false, false, false] 3) = [0, 0] := rfl
  have hc2 : (List.range 3).map
      (col_connection_count [false, false, false, false, false, false] 3 2) =
      [0, 0, 0] := rfl
  have hgd2 : ∀ x : Nat, ([0, 0] : List Nat).getD x 0 = 0 := by
    intro x
    rcases x with _ | x
    · rfl
    · rcases x with _ | x
      · rfl
      · rfl
  have hgd3 : ∀ x : Nat, ([0, 0, 0] : List Nat).getD x 0 = 0 := by
    intro x
    rcases x with _ | x
    · rfl
    · rcases x with _ | x
      · rfl
      · rcases x with _ | x
        · rfl
        · rfl
  have hf1 : (List.range 2).filter
      (fun i => ([0, 0] : List Nat).getD i 0 < 3 + m) = [0, 1] := by
    have heq : (List.range 2).filter
        (fun i => ([0, 0] : List Nat).getD i 0 < 3 + m) = List.range 2 :=
      List.filter_eq_self.mpr (fun x hx => by
        simp only [hgd2 x, decide_eq_true_eq]
        omega)
    rw [heq]
    rfl
  have hf2 : (List.range 2).filter
      (fun i => ([0, 0] : List Nat).getD i 0 < max_connections_overflow (3 + m)) =
      [0, 1] := by
    have heq : (List.range 2).filter
        (fun i => ([0, 0] : List Nat).getD i 0 < max_connections_overflow (3 + m)) =
        List.range 2 :=
      List.filter_eq_self.mpr (fun x hx => by
        simp only [hgd2 x, decide_eq_true_eq]
        omega)
    rw [heq]
    rfl
  have hf3 : (List.range 3).filter
      (fun i => ([0, 0, 0] : List Nat).getD i 0 < 2 + m) = [0, 1, 2] := by
    have heq : (List.range 3).filter
        (fun i => ([0, 0, 0] : List Nat).getD i 0 < 2 + m) = List.range 3 :=
      List.filter_eq_self.mpr (fun x hx => by
        simp only [hgd3 x, decide_eq_true_eq]
        omega)
    rw [heq]
    rfl
  have hf4 : (List.range 3).filter
      (fun i => ([0, 0, 0] : List Nat).getD i 0 < max_connections_overflow (2 + m)) =
      [0, 1, 2] := by
    have heq : (List.range 3).filter
        (fun i => ([0, 0, 0] : List Nat).getD i 0 < max_connections_overflow (2 + m)) =
        List.range 3 :=
      List.filter_eq_self.mpr (fun x hx => by
        simp only [hgd3 x, decide_eq_true_eq]
        omega)
    rw [heq]
    rfl
  have hsum : ([0, 0] : List Nat).sum = 0 := rfl
  simp only [connection_attempt, hca, hcb, hrep, hc1, hc2, hf1, hf2, hf3, hf4, hsum,
    Nat.sub_zero]
  show attempt_finish (place_edges adversary_stream 3 (3 + m)
    (max_connections_overflow (3 + m)) (2 + m) (max_connections_overflow (2 + m)) 5
    (adversary_state0 p)) = (none, p + 422)
  rw [adversary_place_five (3 + m) (max_connections_overflow (3 + m)) (2 + m)
    (max_connections_overflow (2 + m)) p ha haov hb hbov hp]
  rfl

/-- The first attempt of the `(2, 3, 5)` run on the adversarial stream
(margin 0, position 0) fails after 424 draws. -/
theorem adversary_attempt_margin_zero :
    connection_attempt adversary_stream 2 3 5 0 (List.replicate 6 false) 0 =
      (none, 424) := by
  decide

/-- No amount of outer-loop fuel lets the `(2, 3, 5)` run on the
adversarial stream finish once the margin is at least 1 and the position
at least 4. -/
theorem adversary_loop_none :
    ∀ fuel m pos, 1 ≤ m → 4 ≤ pos →
      fill_connection_matrix_loop adversary_stream 2 3 5 (List.replicate 6 false)
        fuel m pos = none := by
  intro fuel
  induction fuel with
  | zero =>
    intro m pos _ _
    rfl
  | succ fuel ih =>
    intro m pos hm hpos
    rw [fill_connection_matrix_loop, adversary_attempt_fails m pos hm hpos]
    exact ih (m + 1) (pos + 422) (by omega) (by omega)

/-- Whatever matrix a successful attempt hands back has the full size,
gains exactly the missing number of connections, and keeps every degree
within the attempt's overflow caps. -/
theorem connection_attempt_ok (g : Nat → Nat) (ofc ifc fmcc margin : Nat)
    (cm : List Bool) (pos : Nat) (m : List Bool) (p' : Nat)
    (hlen : cm.length = ofc * ifc)
    (hdeg_out : ∀ o, o < ofc → row_connection_count cm ifc o ≤
      max_connections_overflow (max_connections_strict fmcc ofc margin))
    (hdeg_in : ∀ i, i < ifc → col_connection_count cm ifc ofc i ≤
      max_connections_overflow (max_connections_strict fmcc ifc margin))
    (h : connection_attempt g ofc ifc fmcc margin cm pos = (some m, p')) :
    m.length = cm.length ∧
      count_true m = count_true cm +
        (fmcc - ((List.range ofc).map (row_connection_count cm ifc)).sum) ∧
      (∀ o, o < ofc → row_connection_count m ifc o ≤
        max_connections_overflow (max_connections_strict fmcc ofc margin)) ∧
      (∀ i, i < ifc → col_connection_count m ifc ofc i ≤
        max_connections_overflow (max_connections_strict fmcc ifc margin)) := by
  simp only [connection_attempt] at h
  obtain ⟨st, hx, rfl⟩ := attempt_finish_some _ _ _ h
  have inv0 := connection_attempt_initial_invariant ofc ifc
    (max_connections_strict fmcc ofc margin)
    (max_connections_overflow (max_connections_strict fmcc ofc margin))
    (max_connections_strict fmcc ifc margin)
    (max_connections_overflow (max_connections_strict fmcc ifc margin))
    cm pos hlen hdeg_out hdeg_in
  obtain ⟨hinv, hcount⟩ := place_edges_invariant g ofc ifc _ _ _ _
    (lt_max_connections_overflow _) (lt_max_connections_overflow _) _ _ st _ inv0 hx
  refine ⟨?_, hcount, hinv.out_degrees, hinv.in_degrees⟩
  rw [hinv.matrix_length, hlen]

/-- C1 (corrected, partial-correctness half): for every stream, whenever
`fill_connection_matrix` started from the all-false matrix returns a
matrix, that matrix has the full `output × input` size, contains exactly
`feature_map_connection_count` true entries, and there is a margin (the
successful attempt's) such that every output degree and every input
degree is within the overflow relaxation of that margin's cap.  The
termination half of the claim is refuted separately: on an adversarial
stream the margin loop never finishes for `(2, 3, 5)`. -/
theorem fill_connection_matrix_partial (g : Nat → Nat) (ofc ifc fmcc fuel : Nat)
    (m : List Bool)
    (h : fill_connection_matrix g ofc ifc fmcc
      (List.replicate (ofc * ifc) false) fuel = some m) :
    m.length = ofc * ifc ∧ count_true m = fmcc ∧
      ∃ margin,
        (∀ o, o < ofc → row_connection_count m ifc o ≤
          max_connections_overflow (max_connections_strict fmcc ofc margin)) ∧
        (∀ i, i < ifc → col_connection_count m ifc ofc i ≤
          max_connections_overflow (max_connections_strict fmcc ifc margin)) := by
  obtain ⟨hlen0, mg, pos', p', ha⟩ :=
    fill_connection_matrix_some_parts g ofc ifc fmcc _ fuel m h
  have hlenr : (List.replicate (ofc * ifc) false).length = ofc * ifc := by simp
  have hdeg_out : ∀ o, o < ofc →
      row_connection_count (List.replicate (ofc * ifc) false) ifc o ≤
        max_connections_overflow (max_connections_strict fmcc ofc mg) := by
    intro o ho
    rw [row_connection_count_replicate_false]
    exact Nat.zero_le _
  have hdeg_in : ∀ i, i < ifc →
      col_connection_count (List.replicate (ofc * ifc) false) ifc ofc i ≤
        max_connections_overflow (max_connections_strict fmcc ifc mg) := by
    intro i hi
    rw [col_connection_count_replicate_false]
    exact Nat.zero_le _
  obtain ⟨h1, h2, h3, h4⟩ := connection_attempt_ok g ofc ifc fmcc mg _ pos' m p'
    hlenr hdeg_out hdeg_in ha
  refine ⟨by rw [h1, hlenr], ?_, mg, h3, h4⟩
  rw [h2, count_true_replicate_false]
  have hsum : ((List.range ofc).map
      (row_connection_count (List.replicate (ofc * ifc) false) ifc)).sum = 0 :=
    List.sum_eq_zero (by
      intro x hx
      obtain ⟨o, _, rfl⟩ := List.mem_map.mp hx
      exact row_connection_count_replicate_false ifc o (ofc * ifc))
  rw [hsum]
  omega

theorem fill_connection_matrix_partial_witness :
    fill_connection_matrix (fun _ => 0) 1 1 1 (List.replicate (1 * 1) false) 1 =
        some [true] ∧
      ([true].length = 1 * 1 ∧ count_true [true] = 1 ∧
        ∃ margin,
          (∀ o, o < 1 → row_connection_count [true] 1 o ≤
            max_connections_overflow (max_connections_strict 1 1 margin)) ∧
          (∀ i, i < 1 → col_connection_count [true] 1 1 i ≤
            max_connections_overflow (max_connections_strict 1 1 margin))) :=
  ⟨by decide, fill_connection_matrix_partial (fun _ => 0) 1 1 1 1 [true] (by decide)⟩

/-- C1 (counterexample, termination half): the `(2, 3, 5)` instance —
which satisfies the claim's bound `max(2, 3) ≤ 5 ≤ 2 * 3` — never
terminates on the adversarial stream: the first attempt fails after 424
draws, and from then on every draw proposes the already-connected pair
`(0, 0)`, so every attempt at every relaxed margin fails, for any amount
of fuel. -/
theorem fill_connection_matrix_divergence :
    ¬ fill_terminates 2 3 5 adversary_stream := by
  intro hterm
  unfold fill_terminates at hterm
  obtain ⟨fuel, m, h⟩ := hterm
  unfold fill_connection_matrix at h
  simp only [show (2 * 3 : Nat) = 6 from rfl] at h
  cases fuel with
  | zero =>
    simp [fill_connection_matrix_loop] at h
  | succ fuel =>
    have hloop : fill_connection_matrix_loop adversary_stream 2 3 5
        (List.replicate 6 false) (fuel + 1) 0 0 = none := by
      rw [fill_connection_matrix_loop, adversary_attempt_margin_zero]
      exact adversary_loop_none fuel 1 424 (by omega) (by omega)
    rw [hloop] at h
    simp at h

/-! ## C5: weight randomization -/

/-- A weight the rejection loop returns is a draw of the sampler at the
requested standard deviation and its magnitude is within the bound. -/
theorem reject_sample_sound (nd : ℚ → Nat → ℚ) (sigma bound : ℚ) :
    ∀ fuel pos val pos',
      reject_sample nd sigma bound fuel pos = some (val, pos') →
      |val| ≤ bound ∧ ∃ p, val = nd sigma p := by
  intro fuel
  induction fuel with
  | zero =>
    intro pos val pos' h
    simp [reject_sample] at h
  | succ fuel ih =>
    intro pos val pos' h
    simp only [reject_sample] at h
    split at h
    · exact ih _ _ _ h
    · rename_i hc
      simp only [Option.some.injEq, Prod.mk.injEq] at h
      obtain ⟨hv, _⟩ := h
      refine ⟨?_, pos, hv.symm⟩
      rw [← hv]
      exact not_lt.mp hc

/-- Every weight the inner loop returns is a bounded draw, and the loop
returns exactly `count` weights. -/
theorem sample_weights_sound (nd : ℚ → Nat → ℚ) (sigma bound : ℚ) (fuel : Nat) :
    ∀ count pos vals pos',
      sample_weights nd sigma bound fuel count pos = some (vals, pos') →
      vals.length = count ∧
        ∀ w ∈ vals, |w| ≤ bound ∧ ∃ p, w = nd sigma p := by
  intro count
  induction count with
  | zero =>
    intro pos vals pos' h
    simp only [sample_weights, Option.some.injEq, Prod.mk.injEq] at h
    obtain ⟨h1, _⟩ := h
    subst h1
    exact ⟨rfl, by simp⟩
  | succ count ih =>
    intro pos vals pos' h
    simp only [sample_weights] at h
    rcases hr : reject_sample nd sigma bound fuel pos with _ | ⟨val, pos1⟩
    · rw [hr] at h
      simp at h
    · rw [hr] at h
      dsimp only at h
      rcases hs : sample_weights nd sigma bound fuel count pos1 with _ | ⟨vals1, pos2⟩
      · rw [hs] at h
        simp at h
      · rw [hs] at h
        simp only [Option.some.injEq, Prod.mk.injEq] at h
        obtain ⟨h1, _⟩ := h
        subst h1
        obtain ⟨hl, hall⟩ := ih _ _ _ hs
        obtain ⟨hb, hp⟩ := reject_sample_sound nd sigma bound fuel pos val pos1 hr
        refine ⟨by simp [hl], ?_⟩
        intro w hw
        rcases List.mem_cons.mp hw with hw | hw
        · subst hw
          exact ⟨hb, hp⟩
        · exact hall w hw

/-- The outer loop's output decomposes into one block per processed
output feature map: the block has `weight_count * k` weights (`k` the
fan-in read off the row-offset table; outputs with `k = 0` get an empty
block), and every weight of a block is a draw of the sampler at that
output's standard deviation, with magnitude at most 100 times it. -/
theorem randomize_weights_ids_sound (sqrtf : ℚ → ℚ) (nd : ℚ → Nat → ℚ)
    (ofc wc : Nat) (row_offsets : List Nat) (fuel : Nat) :
    ∀ ids pos vals pos',
      randomize_weights_ids sqrtf nd ofc wc row_offsets fuel ids pos =
        some (vals, pos') →
      ∃ blocks : List (List ℚ),
        vals = blocks.flatten ∧ blocks.length = ids.length ∧
        ∀ j, j < ids.length →
          (blocks.getD j []).length =
            wc * (row_offsets.getD (ids.getD j 0 + 1) 0 -
              row_offsets.getD (ids.getD j 0) 0) ∧
          ∀ w ∈ blocks.getD j [],
            |w| ≤ 100 * weight_sigma sqrtf
                (row_offsets.getD (ids.getD j 0 + 1) 0 -
                  row_offsets.getD (ids.getD j 0) 0) ofc wc ∧
            ∃ p, w = nd (weight_sigma sqrtf
                (row_offsets.getD (ids.getD j 0 + 1) 0 -
                  row_offsets.getD (ids.getD j 0) 0) ofc wc) p := by
  intro ids
  induction ids with
  | nil =>
    intro pos vals pos' h
    simp only [randomize_weights_ids, Option.some.injEq, Prod.mk.injEq] at h
    obtain ⟨h1, _⟩ := h
    subst h1
    refine ⟨[], rfl, rfl, ?_⟩
    intro j hj
    simp at hj
  | cons id rest ih =>
    intro pos vals pos' h
    simp only [randomize_weights_ids] at h
    by_cases hk : 0 < row_offsets.getD (id + 1) 0 - row_offsets.getD id 0
    · rw [if_pos hk] at h
      rcases hs : sample_weights nd
          (weight_sigma sqrtf
            (row_offsets.getD (id + 1) 0 - row_offsets.getD id 0) ofc wc)
          (100 * weight_sigma sqrtf
            (row_offsets.getD (id + 1) 0 - row_offsets.getD id 0) ofc wc)
          fuel (wc * (row_offsets.getD (id + 1) 0 - row_offsets.getD id 0)) pos
          with _ | ⟨vals1, pos1⟩
      · rw [hs] at h
        simp at h
      · rw [hs] at h
        dsimp only at h
        rcases hr : randomize_weights_ids sqrtf nd ofc wc row_offsets fuel rest pos1
            with _ | ⟨vals2, pos2⟩
        · rw [hr] at h
          simp at h
        · rw [hr] at h
          simp only [Option.some.injEq, Prod.mk.injEq] at h
          obtain ⟨h1, _⟩ := h
          subst h1
          obtain ⟨hl, hall⟩ := sample_weights_sound nd _ _ fuel _ _ _ _ hs
          obtain ⟨blocks, hfl, hbl, hprops⟩ := ih _ _ _ hr
          refine ⟨vals1 :: blocks, by simp [hfl], by simp [hbl], ?_⟩
          intro j hj
          rcases j with _ | j
          · simp only [List.getD_cons_zero]
            exact ⟨hl, hall⟩
          · simp only [List.getD_cons_succ]
            exact hprops j (by simpa using hj)
    · rw [if_neg hk] at h
      obtain ⟨blocks, hfl, hbl, hprops⟩ := ih _ _ _ h
      refine ⟨[] :: blocks, by simp [hfl], by simp [hbl], ?_⟩
      intro j hj
      rcases j with _ | j
      · simp only [List.getD_cons_zero]
        have hk0 : row_offsets.getD (id + 1) 0 - row_offsets.getD id 0 = 0 := by
          omega
        refine ⟨?_, ?_⟩
        · rw [hk0, Nat.mul_zero]
          rfl
        · intro w hw
          simp at hw
      · simp only [List.getD_cons_succ]
        exact hprops j (by simpa using hj)

/-- C5 (confirmed): for every sparse convolution configuration, whenever
`randomize_weights` finishes, its weight group splits into one block per
output feature map; the block of an output with fan-in `k` (read from
the `data_custom[1]` row offsets) has `window_volume * k` weights, each
of which is a draw of the normal sampler parameterized by mean 0 and the
standard deviation `sqrtf(1 / (sqrtf(k * output_feature_map_count) *
window_volume))`, with magnitude at most 100 times that standard
deviation (out-of-bound draws are rejected and resampled); and when
`bias` is enabled every bias value is set to zero. -/
theorem randomize_weights_sigma_and_bias (l : sparse_convolution_layer)
    (sqrtf : ℚ → ℚ) (nd : ℚ → Nat → ℚ) (row_offsets : List Nat)
    (bias0 : List ℚ) (fuel pos : Nat) (weights biases : List ℚ)
    (h : l.randomize_weights sqrtf nd row_offsets bias0 fuel pos =
      some (weights, biases)) :
    (∃ blocks : List (List ℚ),
      weights = blocks.flatten ∧
      blocks.length = l.output_feature_map_count ∧
      ∀ o, o < l.output_feature_map_count →
        (blocks.getD o []).length =
          l.window_sizes.foldl (· * ·) 1 *
            (row_offsets.getD (o + 1) 0 - row_offsets.getD o 0) ∧
        ∀ w ∈ blocks.getD o [],
          |w| ≤ 100 * weight_sigma sqrtf
              (row_offsets.getD (o + 1) 0 - row_offsets.getD o 0)
              l.output_feature_map_count (l.window_sizes.foldl (· * ·) 1) ∧
          ∃ p, w = nd (weight_sigma sqrtf
              (row_offsets.getD (o + 1) 0 - row_offsets.getD o 0)
              l.output_feature_map_count (l.window_sizes.foldl (· * ·) 1)) p) ∧
    (l.bias = true → ∀ b ∈ biases, b = 0) := by
  unfold sparse_convolution_layer.randomize_weights at h
  rcases hr : randomize_weights_ids sqrtf nd l.output_feature_map_count
      (l.window_sizes.foldl (· * ·) 1) row_offsets fuel
      (List.range l.output_feature_map_count) pos with _ | ⟨ws, pos1⟩
  · rw [hr] at h
    simp at h
  · rw [hr] at h
    dsimp only at h
    simp only [Option.some.injEq, Prod.mk.injEq] at h
    obtain ⟨hw, hbias⟩ := h
    subst hw
    constructor
    · obtain ⟨blocks, hfl, hbl, hprops⟩ := randomize_weights_ids_sound sqrtf nd
        _ _ row_offsets fuel _ pos ws pos1 hr
      refine ⟨blocks, hfl, by simpa using hbl, ?_⟩
      intro o ho
      have hido : (List.range l.output_feature_map_count).getD o 0 = o := by
        rw [List.getD_eq_getElem _ _ (by simpa using ho)]
        simp
      have hpo := hprops o (by simpa using ho)
      rw [hido] at hpo
      exact hpo
    · intro hb
      rw [← hbias, if_pos hb]
      intro b hbmem
      obtain ⟨x, _, hx⟩ := List.mem_map.mp hbmem
      exact hx.symm

/-- A concrete complete run of `randomize_weights`: one output with
fan-in one, the abstract square root and normal stream both returning 0,
starting biases `[5]` overwritten to zero. -/
theorem randomize_weights_run :
    sparse_convolution_layer.randomize_weights
      ⟨[1], 1, 1, -1, 1, [0], [0], [1], true⟩ (fun _ => 0) (fun _ _ => 0)
      [0, 1] [5] 1 0 = some ([0], [0]) := by
  have hsigma : weight_sigma (fun _ => (0 : ℚ)) 1 1 1 = 0 := by
    simp [weight_sigma]
  have hrej : reject_sample (fun _ _ => (0 : ℚ)) (weight_sigma (fun _ => 0) 1 1 1)
      (100 * weight_sigma (fun _ => 0) 1 1 1) 1 0 = some (0, 1) := by
    show reject_sample (fun _ _ => (0 : ℚ)) (weight_sigma (fun _ => 0) 1 1 1)
      (100 * weight_sigma (fun _ => 0) 1 1 1) (0 + 1) 0 = some (0, 1)
    simp [reject_sample, hsigma]
  have hsw : sample_weights (fun _ _ => (0 : ℚ)) (weight_sigma (fun _ => 0) 1 1 1)
      (100 * weight_sigma (fun _ => 0) 1 1 1) 1 1 0 = some ([0], 1) := by
    show sample_weights (fun _ _ => (0 : ℚ)) (weight_sigma (fun _ => 0) 1 1 1)
      (100 * weight_sigma (fun _ => 0) 1 1 1) 1 (0 + 1) 0 = some ([0], 1)
    simp [sample_weights, hrej]
  have hids : randomize_weights_ids (fun _ => (0 : ℚ)) (fun _ _ => (0 : ℚ))
      1 1 [0, 1] 1 [0] 0 = some ([0], 1) := by
    simp [randomize_weights_ids, hsw]
  show sparse_convolution_layer.randomize_weights
    ⟨[1], 1, 1, -1, 1, [0], [0], [1], true⟩ (fun _ => 0) (fun _ _ => 0)
    [0, 1] [5] 1 0 = some ([0], [0])
  have hrange : List.range 1 = [0] := rfl
  simp [sparse_convolution_layer.randomize_weights, hrange, hids]

theorem randomize_weights_sigma_and_bias_witness :
    (sparse_convolution_layer.randomize_weights
        ⟨[1], 1, 1, -1, 1, [0], [0], [1], true⟩ (fun _ => 0) (fun _ _ => 0)
        [0, 1] [5] 1 0 = some ([0], [0])) ∧
      ((∃ blocks : List (List ℚ),
        ([0] : List ℚ) = blocks.flatten ∧
        blocks.length = 1 ∧
        ∀ o, o < 1 →
          (blocks.getD o []).length =
            ([1] : List Nat).foldl (· * ·) 1 *
              (([0, 1] : List Nat).getD (o + 1) 0 - ([0, 1] : List Nat).getD o 0) ∧
          ∀ w ∈ blocks.getD o [],
            |w| ≤ 100 * weight_sigma (fun _ => 0)
                (([0, 1] : List Nat).getD (o + 1) 0 - ([0, 1] : List Nat).getD o 0)
                1 (([1] : List Nat).foldl (· * ·) 1) ∧
            ∃ p, w = ((fun _ _ => 0) : ℚ → Nat → ℚ) (weight_sigma (fun _ => 0)
                (([0, 1] : List Nat).getD (o + 1) 0 - ([0, 1] : List Nat).getD o 0)
                1 (([1] : List Nat).foldl (· * ·) 1)) p) ∧
      (true = true → ∀ b ∈ ([0] : List ℚ), b = 0)) :=
  ⟨randomize_weights_run, randomize_weights_sigma_and_bias
    ⟨[1], 1, 1, -1, 1, [0], [0], [1], true⟩ (fun _ => 0) (fun _ _ => 0)
    [0, 1] [5] 1 0 [0] [0] randomize_weights_run⟩

end nnforge
